import Mathlib

/-!
Verification development for the ExitBox repository (Cloud-Exit/ExitBox).

This file shallowly embeds the parts of the Go source relevant to the
workspace resolver, the image pipeline (WorkspaceHash, the project build
freshness check), the egress proxy configuration renderer, the secret
vault, the .env parser and serializer, and the session selector, and
proves or refutes the specification claims about them.

Machine integers are modelled as Nat with explicit reduction mod 2^32
where the Go code uses uint32 arithmetic (the SHA-256 core); byte strings
are List Nat with every element below 256.
-/

/-! ## Basic character and string utilities (models of Go strings helpers) -/

/-- The double-quote character. -/
def quoteD : Char := Char.ofNat 34

/-- The single-quote character. -/
def quoteS : Char := Char.ofNat 39

/-- Model of the whitespace set used by Go strings.TrimSpace for ASCII input:
space, tab, newline, vertical tab, form feed, carriage return. -/
def isSpaceChar (c : Char) : Bool :=
  c == ' ' || c == '\t' || c == '\n' || c == Char.ofNat 11 || c == Char.ofNat 12 || c == '\r'

/-- Left trim at the character-list level. -/
def trimLeftChars (cs : List Char) : List Char := cs.dropWhile isSpaceChar

/-- Right trim at the character-list level (implemented by reversing). -/
def rtrimChars (cs : List Char) : List Char := (cs.reverse.dropWhile isSpaceChar).reverse

/-- Both-ends trim at the character-list level: left trim, then right trim.
Models Go strings.TrimSpace on ASCII text. -/
def trimChars (cs : List Char) : List Char := rtrimChars (trimLeftChars cs)

/-- Model of Go strings.TrimSpace. -/
def trimSpace (s : String) : String := ⟨trimChars s.data⟩

/-- Model of Go strings.HasPrefix s pre. -/
def strStartsWith (s pre : String) : Bool := pre.data.isPrefixOf s.data

/-- dedup returns a new slice with duplicate strings removed, preserving
order (src: dedup in package image, and the identical behaviour the spec
requires of the proxy renderer). Worker with the seen accumulator. -/
def dedupAux (seen : List String) : List String → List String
  | [] => []
  | s :: rest => if s ∈ seen then dedupAux seen rest else s :: dedupAux (s :: seen) rest

/-- dedup with an empty seen set (src: func dedup in package image). -/
def dedup (l : List String) : List String := dedupAux [] l

/-! ## UTF-8 encoding (model of the Go string-to-byte conversion) -/

/-- Encode one Unicode code point as UTF-8 bytes (model of what Go
byte-slicing of a string does for valid code points). -/
def utf8EncodeCP (n : Nat) : List Nat :=
  if n < 128 then [n]
  else if n < 2048 then [192 + n / 64, 128 + n % 64]
  else if n < 65536 then [224 + n / 4096, 128 + n / 64 % 64, 128 + n % 64]
  else [240 + n / 262144, 128 + n / 4096 % 64, 128 + n / 64 % 64, 128 + n % 64]

/-- The bytes of a string, as Go sees them via []byte(s). -/
def strBytes (s : String) : List Nat := s.data.flatMap (fun c => utf8EncodeCP c.toNat)

/-! ## SHA-256 (model of crypto/sha256.Sum256), over Nat mod 2^32 -/

/-- 2^32, the uint32 modulus. -/
def w32 : Nat := 4294967296

/-- Right rotation of a 32-bit word held in a Nat below 2^32. -/
def rotr32 (n x : Nat) : Nat := (x / 2 ^ n + x % 2 ^ n * 2 ^ (32 - n)) % w32

/-- Logical right shift of a 32-bit word. -/
def shr32 (n x : Nat) : Nat := x / 2 ^ n

/-- Bitwise xor (Nat.xor) of words. -/
def bxor (a b : Nat) : Nat := a ^^^ b

/-- Bitwise and. -/
def band (a b : Nat) : Nat := a &&& b

/-- Bitwise complement on 32-bit words. -/
def bnot32 (a : Nat) : Nat := w32 - 1 - a % w32

/-- SHA-256 round constants K. -/
def sha256K : List Nat :=
  [1116352408, 1899447441, 3049323471, 3921009573, 961987163, 1508970993, 2453635748, 2870763221,
   3624381080, 310598401, 607225278, 1426881987, 1925078388, 2162078206, 2614888103, 3248222580,
   3835390401, 4022224774, 264347078, 604807628, 770255983, 1249150122, 1555081692, 1996064986,
   2554220882, 2821834349, 2952996808, 3210313671, 3336571891, 3584528711, 113926993, 338241895,
   666307205, 773529912, 1294757372, 1396182291, 1695183700, 1986661051, 2177026350, 2456956037,
   2730485921, 2820302411, 3259730800, 3345764771, 3516065817, 3600352804, 4094571909, 275423344,
   430227734, 506948616, 659060556, 883997877, 958139571, 1322822218, 1537002063, 1747873779,
   1955562222, 2024104815, 2227730452, 2361852424, 2428436474, 2756734187, 3204031479, 3329325298]

/-- SHA-256 state: eight 32-bit working variables. -/
structure Sha256State where
  a : Nat
  b : Nat
  c : Nat
  d : Nat
  e : Nat
  f : Nat
  g : Nat
  h : Nat

/-- SHA-256 initial hash value H0. -/
def sha256H0 : Sha256State :=
  ⟨1779033703, 3144134277, 1013904242, 2773480762, 1359893119, 2600822924, 528734635, 1541459225⟩

/-- One SHA-256 compression round with round constant k and schedule word w. -/
def sha256Round (st : Sha256State) (k w : Nat) : Sha256State :=
  let s1 := bxor (rotr32 6 st.e) (bxor (rotr32 11 st.e) (rotr32 25 st.e))
  let ch := bxor (band st.e st.f) (band (bnot32 st.e) st.g)
  let t1 := (st.h + s1 + ch + k + w) % w32
  let s0 := bxor (rotr32 2 st.a) (bxor (rotr32 13 st.a) (rotr32 22 st.a))
  let mj := bxor (band st.a st.b) (bxor (band st.a st.c) (band st.b st.c))
  let t2 := (s0 + mj) % w32
  ⟨(t1 + t2) % w32, st.a, st.b, st.c, (st.d + t1) % w32, st.e, st.f, st.g⟩

/-- Extend a 16-word schedule by k further words (to 64 in total). -/
def sha256Extend : List Nat → Nat → List Nat
  | ws, 0 => ws
  | ws, k + 1 =>
    let i := ws.length
    let w15 := ws.getD (i - 15) 0
    let w2 := ws.getD (i - 2) 0
    let w16 := ws.getD (i - 16) 0
    let w7 := ws.getD (i - 7) 0
    let s0 := bxor (rotr32 7 w15) (bxor (rotr32 18 w15) (shr32 3 w15))
    let s1 := bxor (rotr32 17 w2) (bxor (rotr32 19 w2) (shr32 10 w2))
    sha256Extend (ws ++ [(w16 + s0 + w7 + s1) % w32]) k

/-- Chunk a byte list into sublists of n bytes (fuel-based recursion). -/
def chunkFuel (n : Nat) : Nat → List Nat → List (List Nat)
  | 0, _ => []
  | _, [] => []
  | fuel + 1, l => l.take n :: chunkFuel n fuel (l.drop n)

/-- Chunk a byte list into sublists of n bytes. -/
def chunkList (n : Nat) (l : List Nat) : List (List Nat) := chunkFuel n l.length l

/-- Big-endian 32-bit word from four bytes. -/
def word4 (bs : List Nat) : Nat :=
  bs.getD 0 0 * 16777216 + bs.getD 1 0 * 65536 + bs.getD 2 0 * 256 + bs.getD 3 0

/-- SHA-256 padding: append 0x80, zeros, and the 64-bit big-endian bit length. -/
def sha256Pad (msg : List Nat) : List Nat :=
  let len := msg.length
  let zeros := (64 - (len + 9) % 64) % 64
  let bitLen := 8 * len
  msg ++ [128] ++ List.replicate zeros 0 ++
    [bitLen / 2 ^ 56 % 256, bitLen / 2 ^ 48 % 256, bitLen / 2 ^ 40 % 256, bitLen / 2 ^ 32 % 256,
     bitLen / 2 ^ 24 % 256, bitLen / 2 ^ 16 % 256, bitLen / 2 ^ 8 % 256, bitLen % 256]

/-- Compress one 64-byte block into the running state. -/
def sha256Block (st : Sha256State) (block : List Nat) : Sha256State :=
  let ws := sha256Extend ((chunkList 4 block).map word4) 48
  let fin := (sha256K.zip ws).foldl (fun s kw => sha256Round s kw.1 kw.2) st
  ⟨(st.a + fin.a) % w32, (st.b + fin.b) % w32, (st.c + fin.c) % w32, (st.d + fin.d) % w32,
   (st.e + fin.e) % w32, (st.f + fin.f) % w32, (st.g + fin.g) % w32, (st.h + fin.h) % w32⟩

/-- Big-endian bytes of a 32-bit word. -/
def wordBytes (w : Nat) : List Nat :=
  [w / 2 ^ 24 % 256, w / 2 ^ 16 % 256, w / 2 ^ 8 % 256, w % 256]

/-- SHA-256 digest (32 bytes) of a byte message. -/
def sha256 (msg : List Nat) : List Nat :=
  let st := (chunkList 64 (sha256Pad msg)).foldl sha256Block sha256H0
  wordBytes st.a ++ wordBytes st.b ++ wordBytes st.c ++ wordBytes st.d ++
  wordBytes st.e ++ wordBytes st.f ++ wordBytes st.g ++ wordBytes st.h

/-- The lowercase hexadecimal digits. -/
def hexDigits : List Char := "0123456789abcdef".data

/-- One hex digit for a nibble. -/
def hexDigit (n : Nat) : Char := hexDigits.getD n '0'

/-- Lowercase hex string of a byte list (model of fmt.Sprintf with the x verb). -/
def bytesToHex (l : List Nat) : String :=
  ⟨l.flatMap (fun b => [hexDigit (b / 16), hexDigit (b % 16)])⟩

/-- First 16 hex characters of the SHA-256 of a string, i.e. the hex of the
first 8 digest bytes (model of sha256.Sum256 followed by hex of h[:8]). -/
def sha256Hex16 (s : String) : String := bytesToHex ((sha256 (strBytes s)).take 8)

/-! ## Configuration data model (src: internal/config; struct fields as used
by the tests in src/internal/vault/vault_test.go part two and src/unnamed/part_001) -/

/-- A workspace: name, optional directory binding, development profiles and
extra Alpine packages. -/
structure Workspace where
  name : String := ""
  directory : String := ""
  development : List String := []
  packages : List String := []
deriving DecidableEq, Repr

/-- The workspace catalog: active name plus items. -/
structure WorkspaceCatalog where
  active : String := ""
  items : List Workspace := []
deriving DecidableEq, Repr

/-- Settings (only the field the embedded functions read). -/
structure SettingsConfig where
  defaultWorkspace : String := ""
deriving DecidableEq, Repr

/-- Tools config (only the field the embedded functions read). -/
structure ToolsConfig where
  user : List String := []
deriving DecidableEq, Repr

/-- The process-wide configuration. -/
structure Config where
  workspaces : WorkspaceCatalog := {}
  settings : SettingsConfig := {}
  tools : ToolsConfig := {}
deriving DecidableEq, Repr

/-- Scope constant for globally scoped workspaces. -/
def ScopeGlobal : String := "global"

/-- Scope constant for directory-scoped workspaces. -/
def ScopeDirectory : String := "directory"

/-- The resolved active workspace together with the scope it was matched
under. -/
structure ActiveWorkspace where
  scope : String
  workspace : Workspace
deriving DecidableEq, Repr

/-- The scope a workspace carries: directory-bound workspaces are
directory-scoped, all others global. -/
def workspaceScope (ws : Workspace) : String :=
  if ws.directory ≠ "" then ScopeDirectory else ScopeGlobal

/-- Find a workspace by name in the catalog items. -/
def findWorkspace (items : List Workspace) (name : String) : Option Workspace :=
  items.find? (fun ws => ws.name == name)

/-- Directory-scoped candidate for a project directory: among the items
whose directory is a non-empty prefix of the project directory, the one
with the longest directory wins, ties broken by insertion order. -/
def directoryMatch (items : List Workspace) (projectDir : String) : Option Workspace :=
  items.foldl (fun best ws =>
    if ws.directory ≠ "" && strStartsWith projectDir ws.directory then
      match best with
      | none => some ws
      | some b => if b.directory.length < ws.directory.length then some ws else best
    else best) none

/-- Modelled from the spec: profile.ResolveActiveWorkspace. The function
body is absent from src (only its tests in vault_test.go part two and its
callers are present); this definition follows section 4.1 of the spec:
override first (unknown override is an error), then the directory-scoped
match, then the active name, then the default workspace, then the first
item, and nil for an empty catalog. -/
def ResolveActiveWorkspace (cfg : Config) (projectDir overrideName : String) :
    Except String (Option ActiveWorkspace) :=
  if overrideName ≠ "" then
    match findWorkspace cfg.workspaces.items overrideName with
    | some ws => .ok (some ⟨workspaceScope ws, ws⟩)
    | none => .error ("unknown workspace: " ++ overrideName)
  else
    match directoryMatch cfg.workspaces.items projectDir with
    | some ws => .ok (some ⟨ScopeDirectory, ws⟩)
    | none =>
      match (if cfg.workspaces.active ≠ "" then findWorkspace cfg.workspaces.items cfg.workspaces.active else none) with
      | some ws => .ok (some ⟨workspaceScope ws, ws⟩)
      | none =>
        match (if cfg.settings.defaultWorkspace ≠ "" then findWorkspace cfg.workspaces.items cfg.settings.defaultWorkspace else none) with
        | some ws => .ok (some ⟨workspaceScope ws, ws⟩)
        | none => .ok (cfg.workspaces.items.head?.map (fun ws => ⟨workspaceScope ws, ws⟩))

/-! ## Image pipeline (src: func WorkspaceHash and func BuildProject,
static/build/docker-entrypoint_test.sh lines 333 to 490; this is the
current revision of internal/image/project.go, the one that uses the
batched CollectPackages/CustomSnippet path that internal/profile marks as
the replacement for the deprecated DockerfileSnippet) -/

/-- Modelled from the spec: the curated session-tools package list
(referenced by WorkspaceHash and BuildProject as SessionTools). Its
definition is absent from src and the spec does not enumerate the
contents, so it is modelled as an abstract concrete list; no claim
depends on the actual entries. -/
def SessionTools : List String := []

/-- WorkspaceHash computes a short hash encoding the active workspace
configuration (src lines 355 to 366 of the current project.go revision):
scope, name, development profiles and packages of the resolved workspace
when there is one, then the session tools, joined with commas, hashed
with SHA-256, first 8 bytes in hex. The resolver error is discarded. -/
def WorkspaceHash (cfg : Config) (projectDir overrideName : String) : String :=
  let active := match ResolveActiveWorkspace cfg projectDir overrideName with
    | .ok a => a
    | .error _ => none
  let parts := (match active with
    | some a => [a.scope, a.workspace.name] ++ a.workspace.development ++ a.workspace.packages
    | none => []) ++ SessionTools
  sha256Hex16 (String.intercalate "," parts)

/-- Outcome of the project-image build decision. -/
inductive BuildAction where
  | skip : BuildAction
  | build : BuildAction
deriving DecidableEq, Repr

/-- The skip-or-build decision of BuildProject (src lines 387 to 392 of
the current project.go revision): when force is off and the child image
exists, the tools (parent) and project (child) Created timestamps are
inspected; the build is skipped when either is empty or the parent is
not newer (string comparison), and performed otherwise. -/
def projectBuildDecision (force imageExists : Bool) (toolsCreated projectCreated : String) :
    BuildAction :=
  if !force && imageExists then
    if toolsCreated = "" || projectCreated = "" || toolsCreated ≤ projectCreated then .skip
    else .build
  else .build

/-! ## Egress proxy configuration renderer (package network). The
implementation of GenerateSquidConfig is absent from src (only its tests
in src/unnamed/part_000 are present), so it is modelled from the spec,
section 4.4, with the concrete directive texts taken from the tests. -/

/-- The non-resolvable sentinel domain inserted when no domains are
allowed (name taken from the test TestGenerateSquidConfig_EmptyAllowlist). -/
def blockAllSentinel : String := "__agentbox_block_all__"

/-- Modelled from the spec: the allowed-domain list of the proxy
configuration. Empty and whitespace-only entries of the concatenated
workspace allowlist and session extras are skipped, the rest is
deduplicated in first-seen order; when nothing remains the sentinel
domain is inserted. -/
def squidDomains (domains extraURLs : List String) : List String :=
  let cleaned := (domains ++ extraURLs).filter (fun s => trimSpace s ≠ "")
  let deduped := dedup cleaned
  if deduped.isEmpty then [blockAllSentinel] else deduped

/-- The ACL line prefix for allowed destination domains. -/
def domainACLPrefix : String := "acl allowed_domains dstdomain ."

/-- Modelled from the spec: one destination ACL line per allowed domain,
each domain prefixed with a dot to match subdomains. -/
def squidDomainACLLines (domains extraURLs : List String) : List String :=
  (squidDomains domains extraURLs).map (fun d => domainACLPrefix ++ d)

/-- Modelled from the spec: the full rendered configuration as a list of
lines, containing the directives the tests require verbatim, with the
source ACL bound to the subnet and the destination ACL lines in the
middle. -/
def squidConfigLines (subnet : String) (domains extraURLs : List String) : List String :=
  ["http_port 3128",
   "acl agent_sources src " ++ subnet,
   "acl SSL_ports port 443",
   "acl Safe_ports port 80",
   "acl Safe_ports port 443",
   "acl CONNECT method CONNECT"]
  ++ squidDomainACLLines domains extraURLs
  ++ ["http_access deny !Safe_ports",
      "http_access deny CONNECT !SSL_ports",
      "http_access allow localhost",
      "http_access allow agent_sources allowed_domains",
      "http_access deny all",
      "forwarded_for off",
      "via off"]

/-- Modelled from the spec: GenerateSquidConfig renders the configuration
document from the subnet, the workspace allowlist and the per-session
extra URLs. -/
def GenerateSquidConfig (subnet : String) (domains extraURLs : List String) : String :=
  String.intercalate "\n" (squidConfigLines subnet domains extraURLs)

/-! ## The .env parser and serializer (src: internal/vault/vault.go,
func ParseEnvFile, func unquoteEnvValue, func ExportEnvFormat). Go maps
are modelled as insertion-ordered association lists with distinct keys;
map assignment replaces an existing binding in place and appends a fresh
one. -/

/-- Model of Go map assignment m[k] = v on an association list. -/
def envInsert (m : List (String × String)) (k v : String) : List (String × String) :=
  if m.any (fun p => p.1 == k) then
    m.map (fun p => if p.1 == k then (k, v) else p)
  else m ++ [(k, v)]

/-- Model of Go map lookup m[k] with the zero value for absent keys. -/
def envLookup (m : List (String × String)) (k : String) : String :=
  ((m.find? (fun p => p.1 == k)).map (fun p => p.2)).getD ""

/-- unquoteEnvValue strips one pair of matching single or double quotes
from a value (src lines 420 to 427). -/
def unquoteChars (cs : List Char) : List Char :=
  if 2 ≤ cs.length ∧
      ((cs.getD 0 ' ' = quoteD ∧ cs.getD (cs.length - 1) ' ' = quoteD) ∨
       (cs.getD 0 ' ' = quoteS ∧ cs.getD (cs.length - 1) ' ' = quoteS)) then
    (cs.drop 1).dropLast
  else cs

/-- unquoteEnvValue at the String level. -/
def unquoteEnvValue (s : String) : String := ⟨unquoteChars s.data⟩

/-- Split a character list on a separator character; the result is the
list of groups between separators (one more group than separators). -/
def splitCharAux (sep : Char) : List Char → List Char × List (List Char)
  | [] => ([], [])
  | a :: rest =>
    let r := splitCharAux sep rest
    if a == sep then ([], r.1 :: r.2) else (a :: r.1, r.2)

/-- Split on a separator character. -/
def splitChar (sep : Char) (cs : List Char) : List (List Char) :=
  (splitCharAux sep cs).1 :: (splitCharAux sep cs).2

/-- Model of the end-of-line handling of bufio.ScanLines: one optional
trailing carriage return is stripped from each line. -/
def dropTrailingCR (cs : List Char) : List Char :=
  match cs.reverse with
  | a :: rest => if a = '\r' then rest.reverse else cs
  | [] => cs

/-- Parse one line of a .env file (the loop body of ParseEnvFile, src
lines 399 to 415): trim the line; skip blank lines and lines starting
with the comment character; split at the first equals sign (skip when
there is none); trim the key (skip when empty); trim and unquote the
value. -/
def parseEnvLine (cs : List Char) : Option (String × String) :=
  let line := trimChars cs
  if line.isEmpty then none
  else if line.headD ' ' = '#' then none
  else
    match line.dropWhile (fun c => !(c == '=')) with
    | '=' :: afterEq =>
      let key := trimChars (line.takeWhile (fun c => !(c == '=')))
      if key.isEmpty then none
      else some (⟨key⟩, ⟨unquoteChars (trimChars afterEq)⟩)
    | _ => none

/-- ParseEnvFile parses KEY=VALUE lines from .env file data (src lines
396 to 417); bufio line scanning is modelled by splitting on the newline
character and stripping one optional trailing carriage return per line. -/
def ParseEnvFile (data : String) : List (String × String) :=
  (splitChar '\n' data.data).foldl (fun m lineCs =>
    match parseEnvLine (dropTrailingCR lineCs) with
    | none => m
    | some (k, v) => envInsert m k v) []

/-- The sorted key list of ExportEnvFormat (models collecting the map
keys and sort.Strings). -/
def exportKeys (store : List (String × String)) : List String :=
  List.insertionSort (fun a b => a ≤ b) (store.map Prod.fst)

/-- The key-value pairs in the order ExportEnvFormat emits them. -/
def exportPairs (store : List (String × String)) : List (String × String) :=
  (exportKeys store).map (fun k => (k, envLookup store k))

/-- ExportEnvFormat returns the pairs as KEY=VALUE lines, keys sorted
ascending (src lines 346 to 358). -/
def ExportEnvFormat (store : List (String × String)) : String :=
  ⟨((exportPairs store).map (fun p => p.1.data ++ '=' :: p.2.data ++ ['\n'])).flatten⟩

/-! ## Secret vault (src: internal/vault/vault.go). The Badger embedded
database and the Argon2id key derivation are external libraries; they are
modelled abstractly: the derived key is the (password, salt) pair (the
KDF treated as collision-free, as the spec assumes), and the encrypted
database is a key-value list tagged with the key it was created under,
where reads decrypt successfully only under the creating key (models
authenticated encryption). The control flow around them is taken from
the source. -/

/-- The sentinel key used to verify the password is correct (src line 46). -/
def verifyKey : String := "__vault_verify__"

/-- The sentinel value (src line 47). -/
def verifyValue : String := "exitbox-vault-v1"

/-- The salt length in bytes (src line 43). -/
def saltLen : Nat := 32

/-- Modelled from the spec: Argon2id key derivation, abstracted to the
injective pairing of password and salt. -/
def deriveKey (password : String) (salt : List Nat) : String × List Nat := (password, salt)

/-- The encrypted database on disk: the encryption key it was created
under and its entries. -/
structure VaultDB where
  key : String × List Nat
  entries : List (String × String)
deriving DecidableEq, Repr

/-- The on-disk state of one workspace vault: the salt file contents, if
present, and the database directory, if present. -/
structure VaultState where
  salt : Option (List Nat) := none
  db : Option VaultDB := none
deriving DecidableEq, Repr

/-- A fresh workspace with no vault. -/
def emptyVault : VaultState := {}

/-- IsInitialized checks whether a vault exists for the workspace, i.e.
whether the salt file is present (src lines 100 to 104). -/
def vaultIsInit (st : VaultState) : Bool := st.salt.isSome

/-- An open store handle: the database plus the key the caller derived
for this session. -/
structure StoreHandle where
  db : VaultDB
  accessKey : String × List Nat
deriving DecidableEq, Repr

/-- Store.Get (src lines 155 to 171): a read decrypts only under the
creating key (modelled Badger behaviour); an absent key is a KeyNotFound
error, any other value is returned. -/
def storeGet (s : StoreHandle) (k : String) : Except String String :=
  if s.accessKey = s.db.key then
    match s.db.entries.find? (fun p => p.1 == k) with
    | some p => .ok p.2
    | none => .error ("key not found in vault: " ++ k)
  else .error "decryption failed"

/-- Init creates a new vault (src lines 56 to 97). Failures of the two
fallible external steps (opening the new database, writing the
verification entry) are represented by the two injected booleans; the
cleanup paths mirror the source: an open failure removes the salt file,
a verification-write failure removes the database directory and the salt
file. Returns the resulting on-disk state and the error, if any. -/
def vaultInit (st : VaultState) (password : String) (salt : List Nat)
    (openFail setFail : Bool) : VaultState × Option String :=
  if st.salt.isSome then (st, some "vault already exists")
  else
    let key := deriveKey password salt
    if openFail then ({ st with salt := none }, some "creating database")
    else
      match st.db with
      | some d =>
        if d.key = key then
          if setFail then ({ salt := none, db := none }, some "writing verification entry")
          else ({ salt := some salt, db := some { d with entries := envInsert d.entries verifyKey verifyValue } }, none)
        else ({ st with salt := none }, some "creating database")
      | none =>
        if setFail then ({ salt := none, db := none }, some "writing verification entry")
        else ({ salt := some salt, db := some { key := key, entries := [(verifyKey, verifyValue)] } }, none)

/-- Open decrypts and opens the vault database (src lines 108 to 144):
missing salt is an error, a salt of the wrong length is an error, then
the database is opened (created empty when the directory is absent,
which is what Badger does) and the sentinel entry is read and compared;
a failed read or a mismatch is the wrong-password error. -/
def vaultOpen (st : VaultState) (password : String) : Except String StoreHandle :=
  match st.salt with
  | none => .error "reading salt (vault not initialized?)"
  | some salt =>
    if salt.length ≠ saltLen then .error "corrupted salt file"
    else
      let key := deriveKey password salt
      let handle : StoreHandle := { db := st.db.getD { key := key, entries := [] }, accessKey := key }
      match storeGet handle verifyKey with
      | .ok v => if v = verifyValue then .ok handle else .error "wrong password or corrupted vault"
      | .error _ => .error "wrong password or corrupted vault"

/-- QuickSet (src lines 292 to 299): open, Store.Set, close. The write
is persisted into the on-disk state. -/
def vaultQuickSet (st : VaultState) (password k v : String) : Except String VaultState :=
  match vaultOpen st password with
  | .error e => .error e
  | .ok h => .ok { st with db := some { h.db with entries := envInsert h.db.entries k v } }

/-- QuickGet (src lines 282 to 289): open, Store.Get, close. -/
def vaultQuickGet (st : VaultState) (password k : String) : Except String String :=
  match vaultOpen st password with
  | .error e => .error e
  | .ok h => storeGet h k

/-! ## Session selector resolution (src: src/unnamed/part_002, package
session, func ResolveSelector). The sessions directory listing is
modelled as the list of directory entries in the order os.ReadDir
returns them, each carrying its name, whether it is a directory, and the
contents of its .name file (none when the file is unreadable). -/

/-- One entry of the sessions directory. -/
structure SessEntry where
  dirName : String
  isDir : Bool := true
  nameFile : Option String := none
deriving DecidableEq, Repr

/-- The visible session name of an entry (trimmed .name contents). -/
def entryName (e : SessEntry) : String := trimSpace (e.nameFile.getD "")

/-- The scan loop of ResolveSelector (src part_002 lines 153 to 182),
with the accumulated prefix matches: non-directories and entries with an
unreadable or blank .name are skipped; the first exact match on the
trimmed name or on the directory id returns immediately; otherwise the
name is recorded when the selector is a prefix of the directory id.
After the loop one prefix match resolves, several are ambiguous, none is
not found. -/
def resolveFinish (pm : List String) : String × Bool × Option String :=
  if pm.length = 1 then (pm.getD 0 "", true, none)
  else if 1 < pm.length then ("", false, some "ambiguous session id")
  else ("", false, none)

/-- The recursive scan of the directory entries. -/
def resolveLoop (sel : String) : List SessEntry → List String → String × Bool × Option String
  | [], pm => resolveFinish pm
  | e :: rest, pm =>
    if !e.isDir then resolveLoop sel rest pm
    else
      match e.nameFile with
      | none => resolveLoop sel rest pm
      | some raw =>
        let name := trimSpace raw
        if name = "" then resolveLoop sel rest pm
        else if name = sel ∨ e.dirName = sel then (name, true, none)
        else if strStartsWith e.dirName sel then resolveLoop sel rest (pm ++ [name])
        else resolveLoop sel rest pm

/-- ResolveSelector resolves a session selector to the canonical session
name (src part_002 lines 138 to 183): the selector is trimmed, an empty
selector is not found, then the directory listing is scanned. -/
def ResolveSelector (entries : List SessEntry) (selector : String) :
    String × Bool × Option String :=
  let sel := trimSpace selector
  if sel = "" then ("", false, none)
  else resolveLoop sel entries []

/-! ## Predicates used by the claim statements -/

/-- All characters of a string are whitespace. -/
@[reducible] def allSpace (s : String) : Prop := ∀ c ∈ s.data, isSpaceChar c = true

/-- A clean .env key: non-empty, not starting with the comment character,
containing no equals sign and no whitespace (hence no newline). -/
@[reducible] def cleanEnvKey (k : String) : Prop :=
  k.data ≠ [] ∧ k.data.head? ≠ some '#' ∧ ∀ c ∈ k.data, isSpaceChar c = false ∧ c ≠ '='

/-- A clean .env value: no newline, no leading or trailing whitespace. -/
@[reducible] def cleanEnvVal (v : String) : Prop :=
  (∀ c ∈ v.data, c ≠ '\n') ∧ trimChars v.data = v.data

/-- The value is wrapped in one pair of matching outer single or double
quotes (the condition unquoteEnvValue strips on). -/
@[reducible] def quoteWrapped (v : String) : Prop :=
  2 ≤ v.data.length ∧
    ((v.data.getD 0 ' ' = quoteD ∧ v.data.getD (v.data.length - 1) ' ' = quoteD) ∨
     (v.data.getD 0 ' ' = quoteS ∧ v.data.getD (v.data.length - 1) ' ' = quoteS))

/-- Well-formedness of a sessions directory listing: every entry is a
directory with a readable .name whose trimmed contents are non-blank, and
a non-empty directory id (what a stored session always has). -/
@[reducible] def sessValid (entries : List SessEntry) : Prop :=
  ∀ e ∈ entries, e.isDir = true ∧ e.nameFile.isSome ∧ entryName e ≠ "" ∧ e.dirName ≠ ""

/-- The exact-match test of the selector scan: trimmed session name or
directory id equals the selector. -/
def exactPred (sel : String) (e : SessEntry) : Bool :=
  entryName e == sel || e.dirName == sel

/-- The state after a successful vault init with password pw and an
all-zero test salt, then Store.Set of the sentinel key to the value x
(used to exhibit the sentinel-overwrite behaviour). -/
def sentinelOverwrittenVault : VaultState :=
  { salt := some (List.replicate 32 0),
    db := some { key := ("pw", List.replicate 32 0), entries := [(verifyKey, "x")] } }

/-- A padding string: only whitespace, and none of it a newline. -/
@[reducible] def spacesNoNL (s : String) : Prop := ∀ c ∈ s.data, isSpaceChar c = true ∧ c ≠ '\n'

/-- No newline characters in a string. -/
@[reducible] def noNL (s : String) : Prop := ∀ c ∈ s.data, c ≠ '\n'

/-! ## Concrete configurations and stores used as evaluation inputs -/

/-- A config whose active workspace differs from the override target. -/
def cfgOverride : Config :=
  { workspaces := { active := "personal", items := [{ name := "personal" }, { name := "work" }] } }

/-- A config with a single named workspace. -/
def cfgSolo : Config :=
  { workspaces := { items := [{ name := "personal" }] } }

/-- A config with two workspaces and no active or default selection. -/
def cfgPair : Config :=
  { workspaces := { items := [{ name := "first" }, { name := "second" }] } }

/-- A config whose only workspace has no packages. -/
def cfgPkgsA : Config :=
  { workspaces := { items := [{ name := "w", development := ["go"], packages := [] }] } }

/-- The same config with one package added. -/
def cfgPkgsB : Config :=
  { workspaces := { items := [{ name := "w", development := ["go"], packages := ["jq"] }] } }

/-- A config against which an unknown workspace name is resolved. -/
def cfgGhost : Config :=
  { workspaces := { items := [{ name := "personal" }] } }

/-- A one-session store whose directory id every string with the id as
prolongation selects by prefix. -/
def prefixStore : List SessEntry := [⟨"id_abc123", true, some "session-a"⟩]

/-- A two-session store with distinct directory-id prefixes. -/
def sessStoreW : List SessEntry :=
  [⟨"id_abc123", true, some "session-a"⟩, ⟨"id_def456", true, some "session-b"⟩]

/-- The same store extended so that id_abc matches two directory ids. -/
def sessStoreAmb : List SessEntry :=
  sessStoreW ++ [⟨"id_abc999", true, some "session-c"⟩]

/-! # Theorems -/

/-! ## Helper lemmas: trimming -/

theorem dropWhile_all (ws l : List Char) (h : ∀ c ∈ ws, isSpaceChar c = true) :
    (ws ++ l).dropWhile isSpaceChar = l.dropWhile isSpaceChar := by
  induction ws with
  | nil => rfl
  | cons a as ih =>
    simp only [List.cons_append, List.dropWhile_cons, h a (by simp)]
    exact ih (fun c hc => h c (by simp [hc]))

theorem dropWhile_nonspace_head (l : List Char) (h : ∀ c, l.head? = some c → isSpaceChar c = false) :
    l.dropWhile isSpaceChar = l := by
  cases l with
  | nil => rfl
  | cons a as => simp [List.dropWhile_cons, h a rfl]

theorem dropWhile_eq_self_len (p : Char → Bool) (l : List Char)
    (h : (l.dropWhile p).length = l.length) : l.dropWhile p = l := by
  cases l with
  | nil => rfl
  | cons a as =>
    by_cases hp : p a = true
    · exfalso
      simp only [List.dropWhile_cons, hp, if_true] at h
      have := (List.dropWhile_sublist (l := as) p).length_le
      simp at h
      omega
    · simp [List.dropWhile_cons, hp]

theorem ltrim_of_trim_fixed (l : List Char) (h : trimChars l = l) : trimLeftChars l = l := by
  have h1 : (trimLeftChars l).length ≤ l.length := (List.dropWhile_sublist _).length_le
  have h2 : (trimChars l).length ≤ (trimLeftChars l).length := by
    unfold trimChars rtrimChars
    simpa using (List.dropWhile_sublist (l := (trimLeftChars l).reverse) isSpaceChar).length_le
  rw [h] at h2
  exact dropWhile_eq_self_len isSpaceChar l (Nat.le_antisymm h1 h2)

theorem rtrim_of_trim_fixed (l : List Char) (h : trimChars l = l) : rtrimChars l = l := by
  have hl := ltrim_of_trim_fixed l h
  unfold trimChars at h
  rw [hl] at h
  exact h

theorem trim_append_left (ws l : List Char) (h : ∀ c ∈ ws, isSpaceChar c = true) :
    trimChars (ws ++ l) = trimChars l := by
  unfold trimChars trimLeftChars
  rw [dropWhile_all ws l h]

theorem trim_append_right (l ws : List Char) (h : ∀ c ∈ ws, isSpaceChar c = true) :
    trimChars (l ++ ws) = trimChars l := by
  unfold trimChars trimLeftChars
  by_cases hl : l.dropWhile isSpaceChar = []
  · have hws : List.dropWhile isSpaceChar ws = [] := List.dropWhile_eq_nil_iff.2 h
    rw [List.dropWhile_append, hl, hws]
    simp
  · simp only [List.dropWhile_append, List.isEmpty_eq_true, hl, if_false]
    unfold rtrimChars
    rw [List.reverse_append, dropWhile_all _ _ (fun c hc => h c (List.mem_reverse.1 hc))]

theorem dropWhile_none (l : List Char) (h : ∀ c ∈ l, isSpaceChar c = false) :
    l.dropWhile isSpaceChar = l := by
  cases l with
  | nil => rfl
  | cons a as => simp [List.dropWhile_cons, h a (by simp)]

theorem trim_nonspace (l : List Char) (h : ∀ c ∈ l, isSpaceChar c = false) :
    trimChars l = l := by
  unfold trimChars trimLeftChars rtrimChars
  rw [dropWhile_none l h, dropWhile_none l.reverse (fun c hc => h c (List.mem_reverse.1 hc)),
    List.reverse_reverse]

theorem trim_mid_fixed (a : Char) (mid v : List Char) (ha : isSpaceChar a = false)
    (hmid : ∀ c ∈ mid, isSpaceChar c = false) (hv : trimChars v = v) :
    trimChars (a :: mid ++ v) = a :: mid ++ v := by
  unfold trimChars
  have hlv : trimLeftChars (a :: mid ++ v) = a :: mid ++ v := by
    unfold trimLeftChars
    simp [List.dropWhile_cons, ha]
  rw [hlv]
  unfold rtrimChars
  by_cases hvnil : v = []
  · subst hvnil
    have hns : ∀ c ∈ (a :: mid ++ ([] : List Char)).reverse, isSpaceChar c = false := by
      intro c hc
      have hcm : c ∈ a :: mid := by simpa using List.mem_reverse.1 hc
      rcases List.mem_cons.1 hcm with hx | hx
      · exact hx ▸ ha
      · exact hmid c hx
    rw [dropWhile_none _ hns, List.reverse_reverse]
  · have hrv : List.dropWhile isSpaceChar v.reverse = v.reverse := by
      have := rtrim_of_trim_fixed v hv
      unfold rtrimChars at this
      have := congrArg List.reverse this
      simpa using this
    have hvrev : v.reverse ≠ [] := by simpa using hvnil
    rw [show (a :: mid ++ v).reverse = v.reverse ++ (a :: mid).reverse by simp,
      List.dropWhile_append]
    rw [hrv]
    simp only [List.isEmpty_eq_true, hvrev, if_false]
    simp

theorem trim_dropCR (cs : List Char) : trimChars (dropTrailingCR cs) = trimChars cs := by
  unfold dropTrailingCR
  cases hr : cs.reverse with
  | nil => rfl
  | cons a rest =>
    by_cases ha : a = '\r'
    · subst ha
      have hcs : cs = rest.reverse ++ ['\r'] := by
        have := congrArg List.reverse hr
        simpa using this
      simp only [if_true]
      conv_rhs => rw [hcs]
      rw [trim_append_right _ _ (by intro c hc; simp at hc; simp [hc, isSpaceChar])]
    · simp [ha]

theorem dropWhile_app {p : Char → Bool} (xs rest : List Char) (h : ∀ c ∈ xs, p c = true) :
    (xs ++ rest).dropWhile p = rest.dropWhile p := by
  induction xs with
  | nil => rfl
  | cons a as ih =>
    simp only [List.cons_append, List.dropWhile_cons, h a (by simp)]
    exact ih (fun c hc => h c (by simp [hc]))

theorem takeWhile_app {p : Char → Bool} (xs rest : List Char) (h : ∀ c ∈ xs, p c = true) :
    (xs ++ rest).takeWhile p = xs ++ rest.takeWhile p := by
  induction xs with
  | nil => rfl
  | cons a as ih =>
    simp only [List.cons_append, List.takeWhile_cons, h a (by simp)]
    simp [ih (fun c hc => h c (by simp [hc]))]

theorem rtrim_append_fixed (A v : List Char) (hv : rtrimChars v = v) (hne : v ≠ []) :
    rtrimChars (A ++ v) = A ++ v := by
  have hdw : v.reverse.dropWhile isSpaceChar = v.reverse := by
    have := congrArg List.reverse hv
    unfold rtrimChars at this
    simpa using this
  unfold rtrimChars
  rw [List.reverse_append, List.dropWhile_append, hdw]
  have hvr : v.reverse ≠ [] := by simpa using hne
  simp [List.isEmpty_eq_true, hvr]

theorem trim_fixed_ends (a b : Char) (mid : List Char)
    (ha : isSpaceChar a = false) (hb : isSpaceChar b = false) :
    trimChars (a :: (mid ++ [b])) = a :: (mid ++ [b]) := by
  unfold trimChars trimLeftChars
  rw [List.dropWhile_cons]
  simp only [ha, Bool.false_eq_true, if_false]
  unfold rtrimChars
  have hrev : (a :: (mid ++ [b])).reverse = b :: (mid.reverse ++ [a]) := by simp
  rw [hrev, List.dropWhile_cons]
  simp only [hb, Bool.false_eq_true, if_false]
  simp

theorem space_ne_eq {c : Char} (h : isSpaceChar c = true) : c ≠ '=' := by
  intro he
  subst he
  simp [isSpaceChar] at h

theorem parseEnvLine_core (k v : String) (ws1 ws2 ws3 ws4 : List Char)
    (h1 : ∀ c ∈ ws1, isSpaceChar c = true) (h2 : ∀ c ∈ ws2, isSpaceChar c = true)
    (h3 : ∀ c ∈ ws3, isSpaceChar c = true) (h4 : ∀ c ∈ ws4, isSpaceChar c = true)
    (hk : cleanEnvKey k) (hv : trimChars v.data = v.data) :
    parseEnvLine (ws1 ++ (k.data ++ (ws2 ++ ('=' :: (ws3 ++ (v.data ++ ws4)))))) =
      some (k, unquoteEnvValue v) := by
  obtain ⟨hk0, hkh, hkc⟩ := hk
  obtain ⟨kh, kt, hkd⟩ : ∃ kh kt, k.data = kh :: kt := by
    cases hkdata : k.data with
    | nil => exact absurd hkdata hk0
    | cons x xs => exact ⟨x, xs, rfl⟩
  have hkhns : isSpaceChar kh = false := (hkc kh (by rw [hkd]; simp)).1
  have hkhne : kh ≠ '#' := by
    intro hcontra
    exact hkh (by rw [hkd, hcontra]; simp)
  have hstep1 : trimChars (ws1 ++ (k.data ++ (ws2 ++ ('=' :: (ws3 ++ (v.data ++ ws4)))))) =
      trimChars (k.data ++ (ws2 ++ ('=' :: (ws3 ++ (v.data ++ ws4))))) :=
    trim_append_left _ _ h1
  have hstep2 : (k.data ++ (ws2 ++ ('=' :: (ws3 ++ (v.data ++ ws4))))) =
      (k.data ++ (ws2 ++ ('=' :: (ws3 ++ v.data)))) ++ ws4 := by
    simp [List.append_assoc]
  have hstep3 : trimChars ((k.data ++ (ws2 ++ ('=' :: (ws3 ++ v.data)))) ++ ws4) =
      trimChars (k.data ++ (ws2 ++ ('=' :: (ws3 ++ v.data)))) :=
    trim_append_right _ _ h4
  have hWval : ∃ W, trimChars (k.data ++ (ws2 ++ ('=' :: (ws3 ++ v.data)))) =
      (k.data ++ ws2) ++ '=' :: W ∧ trimChars W = v.data := by
    by_cases hvnil : v.data = []
    · refine ⟨[], ?_, by simpa [trimChars, trimLeftChars, rtrimChars] using hvnil.symm⟩
      have hXeq : (k.data ++ (ws2 ++ ('=' :: (ws3 ++ v.data)))) =
          (kh :: ((kt ++ ws2) ++ ['='])) ++ ws3 := by
        rw [hkd, hvnil]
        simp [List.append_assoc]
      rw [hXeq, trim_append_right _ _ h3, trim_fixed_ends kh '=' (kt ++ ws2) hkhns (by decide)]
      rw [hkd]
      simp [List.append_assoc]
    · refine ⟨ws3 ++ v.data, ?_, by rw [trim_append_left _ _ h3, hv]⟩
      have hlX : trimLeftChars (k.data ++ (ws2 ++ ('=' :: (ws3 ++ v.data)))) =
          (k.data ++ (ws2 ++ ('=' :: (ws3 ++ v.data)))) := by
        rw [hkd]
        unfold trimLeftChars
        simp only [List.cons_append, List.dropWhile_cons, hkhns, Bool.false_eq_true, if_false]
      have hrX : rtrimChars (k.data ++ (ws2 ++ ('=' :: (ws3 ++ v.data)))) =
          (k.data ++ (ws2 ++ ('=' :: (ws3 ++ v.data)))) := by
        have hshape : (k.data ++ (ws2 ++ ('=' :: (ws3 ++ v.data)))) =
            (k.data ++ (ws2 ++ ('=' :: ws3))) ++ v.data := by
          simp [List.append_assoc]
        rw [hshape, rtrim_append_fixed _ _ (rtrim_of_trim_fixed _ hv) hvnil]
      unfold trimChars
      rw [hlX, hrX]
      simp [List.append_assoc]
  obtain ⟨W, hXW, hWv⟩ := hWval
  simp only [parseEnvLine]
  rw [hstep1, hstep2, hstep3, hXW]
  have hTcons : (k.data ++ ws2) ++ '=' :: W = kh :: ((kt ++ ws2) ++ '=' :: W) := by
    rw [hkd]
    simp [List.append_assoc]
  rw [hTcons]
  have hne : (kh :: ((kt ++ ws2) ++ '=' :: W)).isEmpty = false := rfl
  rw [hne]
  simp only [Bool.false_eq_true, if_false, List.headD_cons]
  rw [if_neg hkhne]
  have hksat : ∀ c ∈ kh :: (kt ++ ws2), (fun c => !(c == '=')) c = true := by
    intro c hc
    rcases List.mem_cons.1 hc with hx | hx
    · subst hx
      simp [(hkc c (by rw [hkd]; simp)).2]
    · rcases List.mem_append.1 hx with hy | hy
      · simp [(hkc c (by rw [hkd]; simp [hy])).2]
      · simp [space_ne_eq (h2 c hy)]
  have hgroup : kh :: ((kt ++ ws2) ++ '=' :: W) = (kh :: (kt ++ ws2)) ++ '=' :: W := rfl
  rw [hgroup, dropWhile_app _ _ hksat, takeWhile_app _ _ hksat]
  simp only [List.dropWhile_cons, List.takeWhile_cons, beq_self_eq_true, Bool.not_true,
    Bool.false_eq_true, if_false, List.append_nil]
  have hkey : trimChars (kh :: (kt ++ ws2)) = k.data := by
    have hsh : kh :: (kt ++ ws2) = k.data ++ ws2 := by rw [hkd]; rfl
    rw [hsh, trim_append_right _ _ h2]
    exact trim_nonspace _ (fun c hc => (hkc c hc).1)
  rw [hkey]
  have hkne : k.data.isEmpty = false := by
    rw [hkd]; rfl
  rw [hkne]
  simp only [Bool.false_eq_true, if_false, hWv]
  rfl

theorem parseEnvLine_congr (cs1 cs2 : List Char) (h : trimChars cs1 = trimChars cs2) :
    parseEnvLine cs1 = parseEnvLine cs2 := by
  simp only [parseEnvLine]
  rw [h]

theorem parseEnvLine_dropCR (cs : List Char) :
    parseEnvLine (dropTrailingCR cs) = parseEnvLine cs :=
  parseEnvLine_congr _ _ (trim_dropCR cs)

theorem splitCharAux_no_sep (sep : Char) (cs : List Char) (h : sep ∉ cs) :
    splitCharAux sep cs = (cs, []) := by
  induction cs with
  | nil => rfl
  | cons a as ih =>
    have hne : (a == sep) = false := by
      simp only [beq_eq_false_iff_ne, ne_eq]
      intro hx
      exact h (by simp [hx])
    simp only [splitCharAux, ih (fun hx => h (by simp [hx])), hne]
    simp

theorem splitChar_single (cs : List Char) (h : '\n' ∉ cs) :
    splitChar '\n' cs = [cs] := by
  unfold splitChar
  rw [splitCharAux_no_sep '\n' cs h]

theorem splitCharAux_append_sep (sep : Char) (xs ys : List Char) (h : sep ∉ xs) :
    splitCharAux sep (xs ++ sep :: ys) =
      (xs, (splitCharAux sep ys).1 :: (splitCharAux sep ys).2) := by
  induction xs with
  | nil => simp [splitCharAux]
  | cons a as ih =>
    have hne : (a == sep) = false := by
      simp only [beq_eq_false_iff_ne, ne_eq]
      intro hx
      exact h (by simp [hx])
    have hih := ih (fun hx => h (by simp [hx]))
    simp only [List.cons_append, splitCharAux, hne, List.append_eq]
    rw [hih]
    simp

theorem splitChar_lines (lines : List (List Char)) (h : ∀ l ∈ lines, '\n' ∉ l) :
    splitChar '\n' ((lines.map (fun l => l ++ ['\n'])).flatten) = lines ++ [[]] := by
  induction lines with
  | nil => rfl
  | cons x xs ih =>
    have hih := ih (fun l hl => h l (by simp [hl]))
    unfold splitChar at hih ⊢
    have hshape : ((x :: xs).map (fun l => l ++ ['\n'])).flatten =
        x ++ '\n' :: ((xs.map (fun l => l ++ ['\n'])).flatten) := by
      simp [List.append_assoc]
    rw [hshape, splitCharAux_append_sep '\n' _ _ (h x (by simp))]
    simp only [List.cons_append]
    rw [hih]

theorem ParseEnvFile_single (s : String) (h : ∀ c ∈ s.data, c ≠ '\n') :
    ParseEnvFile s = (match parseEnvLine s.data with
      | none => []
      | some (k, v) => [(k, v)]) := by
  unfold ParseEnvFile
  rw [splitChar_single s.data (fun hx => (h '\n' hx) rfl)]
  simp only [List.foldl_cons, List.foldl_nil, parseEnvLine_dropCR]
  cases parseEnvLine s.data with
  | none => rfl
  | some p => cases p; rfl

theorem trim_all_space (l : List Char) (h : ∀ c ∈ l, isSpaceChar c = true) :
    trimChars l = [] := by
  unfold trimChars trimLeftChars
  rw [List.dropWhile_eq_nil_iff.2 h]
  rfl

theorem trim_cons_nonspace (a : Char) (xs : List Char) (ha : isSpaceChar a = false) :
    trimChars (a :: xs) = a :: rtrimChars xs := by
  unfold trimChars trimLeftChars
  rw [List.dropWhile_cons]
  simp only [ha, Bool.false_eq_true, if_false]
  unfold rtrimChars
  by_cases hx : xs.reverse.dropWhile isSpaceChar = []
  · rw [show (a :: xs).reverse = xs.reverse ++ [a] by simp, List.dropWhile_append, hx]
    simp [ha]
  · rw [show (a :: xs).reverse = xs.reverse ++ [a] by simp, List.dropWhile_append]
    simp only [List.isEmpty_eq_true, hx, if_false]
    simp

theorem unquote_wrapped (q : Char) (w : List Char) (hq : q = quoteD ∨ q = quoteS) :
    unquoteChars (q :: (w ++ [q])) = w := by
  unfold unquoteChars
  have hlen : (q :: (w ++ [q])).length = w.length + 2 := by simp
  have h0 : (q :: (w ++ [q])).getD 0 ' ' = q := rfl
  have hlast : (q :: (w ++ [q])).getD ((q :: (w ++ [q])).length - 1) ' ' = q := by
    have harith : w.length + 2 - 1 = w.length + 1 := by omega
    rw [hlen, harith]
    simp only [List.getD]
    rw [show (q :: (w ++ [q])).get? (w.length + 1) = (w ++ [q]).get? w.length from rfl]
    rw [List.get?_append_right (Nat.le_refl _)]
    simp
  rw [if_pos]
  · simp
  · refine ⟨by rw [hlen]; omega, ?_⟩
    rcases hq with hq | hq <;> subst hq
    · exact Or.inl ⟨h0, hlast⟩
    · exact Or.inr ⟨h0, hlast⟩

theorem unquote_not_wrapped (v : String) (h : ¬ quoteWrapped v) :
    unquoteChars v.data = v.data := by
  unfold unquoteChars
  rw [if_neg]
  exact fun hc => h hc

theorem envInsert_fresh (m : List (String × String)) (k v : String)
    (h : ∀ q ∈ m, q.1 ≠ k) : envInsert m k v = m ++ [(k, v)] := by
  unfold envInsert
  rw [if_neg]
  simp only [List.any_eq_true, beq_iff_eq, not_exists]
  intro q hq
  exact h q hq.1 hq.2

theorem nonspace_ne_nl {c : Char} (h : isSpaceChar c = false) : c ≠ '\n' := by
  intro hx
  subst hx
  simp [isSpaceChar] at h

theorem envParse_fold (pairs acc : List (String × String))
    (hclean : ∀ p ∈ pairs, cleanEnvKey p.1 ∧ trimChars p.2.data = p.2.data ∧
      unquoteChars p.2.data = p.2.data)
    (hnd : (pairs.map Prod.fst).Nodup)
    (hfresh : ∀ p ∈ pairs, ∀ q ∈ acc, q.1 ≠ p.1) :
    (pairs.map (fun p => p.1.data ++ '=' :: p.2.data)).foldl
      (fun m lineCs => match parseEnvLine (dropTrailingCR lineCs) with
        | none => m
        | some (k, v) => envInsert m k v) acc = acc ++ pairs := by
  induction pairs generalizing acc with
  | nil => simp
  | cons p rest ih =>
    obtain ⟨hk, hvtrim, hvq⟩ := hclean p (by simp)
    have hline : parseEnvLine (dropTrailingCR (p.1.data ++ '=' :: p.2.data)) =
        some (p.1, p.2) := by
      rw [parseEnvLine_dropCR]
      have hshape : p.1.data ++ '=' :: p.2.data =
          ([] : List Char) ++ (p.1.data ++ (([] : List Char) ++
            ('=' :: (([] : List Char) ++ (p.2.data ++ ([] : List Char)))))) := by
        simp
      rw [hshape, parseEnvLine_core p.1 p.2 [] [] [] [] (by simp) (by simp) (by simp) (by simp)
        hk hvtrim]
      have : unquoteEnvValue p.2 = p.2 := by
        unfold unquoteEnvValue
        rw [hvq]
      rw [this]
    simp only [List.map_cons, List.foldl_cons, hline]
    rw [envInsert_fresh acc p.1 p.2 (fun q hq => hfresh p (by simp) q hq)]
    have hndrest : (rest.map Prod.fst).Nodup := by
      have hc : (p.1 :: rest.map Prod.fst).Nodup := by simpa using hnd
      exact (List.nodup_cons.1 hc).2
    have hfresh2 : ∀ x ∈ rest, ∀ q ∈ acc ++ [(p.1, p.2)], q.1 ≠ x.1 := by
      intro x hx q hq
      rcases List.mem_append.1 hq with hz | hz
      · exact hfresh x (List.mem_cons_of_mem _ hx) q hz
      · have hqe : q = (p.1, p.2) := by simpa using hz
        subst hqe
        have hknotin : p.1 ∉ rest.map Prod.fst := by
          have hc : (p.1 :: rest.map Prod.fst).Nodup := by simpa using hnd
          exact (List.nodup_cons.1 hc).1
        intro hcontra
        exact hknotin (by rw [hcontra]; exact List.mem_map_of_mem _ hx)
    rw [ih (acc ++ [(p.1, p.2)]) (fun x hx => hclean x (List.mem_cons_of_mem _ hx)) hndrest
      hfresh2]
    simp

theorem map_fst_pairs (m : List (String × String)) (hnd : (m.map Prod.fst).Nodup) :
    (m.map Prod.fst).map (fun k => (k, envLookup m k)) = m := by
  induction m with
  | nil => rfl
  | cons p rest ih =>
    have hc : (p.1 :: rest.map Prod.fst).Nodup := by simpa using hnd
    have hhead : envLookup (p :: rest) p.1 = p.2 := by
      unfold envLookup
      rw [List.find?_cons_of_pos _ (by simp)]
      rfl
    have htail : ∀ k ∈ rest.map Prod.fst,
        (fun k => (k, envLookup (p :: rest) k)) k = (fun k => (k, envLookup rest k)) k := by
      intro k hk
      have hne : p.1 ≠ k := fun hx => (List.nodup_cons.1 hc).1 (hx ▸ hk)
      simp only
      unfold envLookup
      rw [List.find?_cons_of_neg _ (by simpa using hne)]
    simp only [List.map_cons, hhead]
    rw [List.map_congr_left htail, ih (List.nodup_cons.1 hc).2]

theorem exportPairs_perm (m : List (String × String)) (hnd : (m.map Prod.fst).Nodup) :
    (exportPairs m).Perm m := by
  unfold exportPairs exportKeys
  have hperm := List.perm_insertionSort (fun a b : String => a ≤ b) (m.map Prod.fst)
  have := hperm.map (fun k => (k, envLookup m k))
  rw [map_fst_pairs m hnd] at this
  exact this

theorem exportKeys_of_pairs (m : List (String × String)) :
    (exportPairs m).map Prod.fst = exportKeys m := by
  unfold exportPairs
  rw [List.map_map]
  simp [Function.comp_def]

theorem ExportEnvFormat_data (m : List (String × String)) :
    (ExportEnvFormat m).data =
      (((exportPairs m).map (fun p => p.1.data ++ '=' :: p.2.data)).map
        (fun l => l ++ ['\n'])).flatten := by
  unfold ExportEnvFormat
  show ((exportPairs m).map (fun p => (p.1.data ++ '=' :: p.2.data) ++ ['\n'])).flatten = _
  rw [List.map_map]
  rfl

theorem env_roundtrip_aux (m : List (String × String)) (hnd : (m.map Prod.fst).Nodup)
    (hclean : ∀ p ∈ m, cleanEnvKey p.1 ∧ cleanEnvVal p.2 ∧ ¬ quoteWrapped p.2) :
    ParseEnvFile (ExportEnvFormat m) = exportPairs m := by
  have hperm := exportPairs_perm m hnd
  unfold ParseEnvFile
  rw [ExportEnvFormat_data m]
  have hnl : ∀ l ∈ (exportPairs m).map (fun p => p.1.data ++ '=' :: p.2.data), '\n' ∉ l := by
    intro l hl
    obtain ⟨p, hp, rfl⟩ := List.mem_map.1 hl
    obtain ⟨hk, hv, hq⟩ := hclean p (hperm.subset hp)
    intro hmem
    rcases List.mem_append.1 hmem with hz | hz
    · have := (hk.2.2 _ hz).1
      simp [isSpaceChar] at this
    · rcases List.mem_cons.1 hz with hz2 | hz2
      · exact absurd hz2 (by decide)
      · exact hv.1 _ hz2 rfl
  rw [splitChar_lines _ hnl, List.foldl_append]
  have hmain := envParse_fold (exportPairs m) []
    (by
      intro p hp
      obtain ⟨hk, hv, hq⟩ := hclean p (hperm.subset hp)
      exact ⟨hk, hv.2, unquote_not_wrapped p.2 hq⟩)
    (by
      rw [exportKeys_of_pairs]
      unfold exportKeys
      exact ((List.perm_insertionSort _ _).nodup_iff).2 hnd)
    (by intro p hp q hq; simp at hq)
  rw [hmain]
  have hempty : parseEnvLine (dropTrailingCR []) = none := rfl
  simp [hempty]

theorem splitCharAux_chars (sep : Char) (cs : List Char) :
    (∀ c ∈ (splitCharAux sep cs).1, c ∈ cs) ∧
      (∀ g ∈ (splitCharAux sep cs).2, ∀ c ∈ g, c ∈ cs) := by
  induction cs with
  | nil => exact ⟨by simp [splitCharAux], by simp [splitCharAux]⟩
  | cons a rest ih =>
    unfold splitCharAux
    by_cases ha : (a == sep) = true
    · simp only [ha, if_true]
      refine ⟨by simp, ?_⟩
      intro g hg c hc
      rcases List.mem_cons.1 hg with hz | hz
      · exact List.mem_cons_of_mem _ (ih.1 c (hz ▸ hc))
      · exact List.mem_cons_of_mem _ (ih.2 g hz c hc)
    · simp only [ha, if_false]
      refine ⟨?_, ?_⟩
      · intro c hc
        rcases List.mem_cons.1 hc with hz | hz
        · simp [hz]
        · exact List.mem_cons_of_mem _ (ih.1 c hz)
      · intro g hg c hc
        exact List.mem_cons_of_mem _ (ih.2 g hg c hc)

theorem splitChar_chars (sep : Char) (cs : List Char) :
    ∀ g ∈ splitChar sep cs, ∀ c ∈ g, c ∈ cs := by
  intro g hg c hc
  unfold splitChar at hg
  rcases List.mem_cons.1 hg with hz | hz
  · exact (splitCharAux_chars sep cs).1 c (hz ▸ hc)
  · exact (splitCharAux_chars sep cs).2 g hz c hc

theorem parseEnvLine_blank (g : List Char) (h : ∀ c ∈ g, isSpaceChar c = true) :
    parseEnvLine g = none := by
  simp only [parseEnvLine]
  rw [trim_all_space g h]
  rfl

theorem parseEnvLine_comment (cs : List Char) (h : (trimChars cs).head? = some '#') :
    parseEnvLine cs = none := by
  simp only [parseEnvLine]
  have hne : (trimChars cs).isEmpty = false := by
    cases htc : trimChars cs with
    | nil => rw [htc] at h; cases h
    | cons x xs => rfl
  rw [hne]
  simp only [Bool.false_eq_true, if_false]
  rw [List.headD_eq_head?, h]
  rfl

theorem foldl_parse_none (lines : List (List Char)) (acc : List (String × String))
    (h : ∀ l ∈ lines, parseEnvLine (dropTrailingCR l) = none) :
    lines.foldl (fun m lineCs => match parseEnvLine (dropTrailingCR lineCs) with
      | none => m
      | some (k, v) => envInsert m k v) acc = acc := by
  induction lines generalizing acc with
  | nil => rfl
  | cons l rest ih =>
    simp only [List.foldl_cons, h l (by simp)]
    exact ih acc (fun x hx => h x (by simp [hx]))

/-- Claim C6: the .env parser accepts KEY=VALUE lines, ignores blank and
comment lines, trims whitespace around key and value, strips one pair of
matched outer quotes from the value, splits only on the first equals sign
so later ones stay in the value, and drops lines with an empty key. -/
theorem exitbox_C6_env_parse :
    (∀ s : String, allSpace s → ParseEnvFile s = []) ∧
    (∀ s : String, noNL s → (trimChars s.data).head? = some '#' → ParseEnvFile s = []) ∧
    (∀ ws1 ws2 ws3 ws4 k v : String, spacesNoNL ws1 → spacesNoNL ws2 → spacesNoNL ws3 →
      spacesNoNL ws4 → cleanEnvKey k → cleanEnvVal v →
      ParseEnvFile (ws1 ++ k ++ ws2 ++ "=" ++ ws3 ++ v ++ ws4) = [(k, unquoteEnvValue v)]) ∧
    (∀ ws v : String, spacesNoNL ws → noNL v → ParseEnvFile (ws ++ "=" ++ v) = []) ∧
    (∀ k w : String, cleanEnvKey k → noNL w →
      ParseEnvFile (k ++ "=" ++ ⟨quoteD :: (w.data ++ [quoteD])⟩) = [(k, w)] ∧
      ParseEnvFile (k ++ "=" ++ ⟨quoteS :: (w.data ++ [quoteS])⟩) = [(k, w)]) := by
  refine ⟨?_, ?_, ?_, ?_, ?_⟩
  · intro s hs
    unfold ParseEnvFile
    apply foldl_parse_none
    intro l hl
    rw [parseEnvLine_dropCR]
    exact parseEnvLine_blank l (fun c hc => hs c (splitChar_chars '\n' s.data l hl c hc))
  · intro s hnl hhd
    rw [ParseEnvFile_single s hnl, parseEnvLine_comment s.data hhd]
  · intro ws1 ws2 ws3 ws4 k v hw1 hw2 hw3 hw4 hk hv
    have hdata : (ws1 ++ k ++ ws2 ++ "=" ++ ws3 ++ v ++ ws4).data =
        ws1.data ++ (k.data ++ (ws2.data ++ ('=' :: (ws3.data ++ (v.data ++ ws4.data))))) := by
      simp [List.append_assoc]
    have hnl : noNL (ws1 ++ k ++ ws2 ++ "=" ++ ws3 ++ v ++ ws4) := by
      unfold noNL
      rw [hdata]
      intro c hc
      simp only [List.mem_append, List.mem_cons] at hc
      rcases hc with h | h | h | h | h | h | h
      · exact (hw1 c h).2
      · exact nonspace_ne_nl (hk.2.2 c h).1
      · exact (hw2 c h).2
      · subst h; decide
      · exact (hw3 c h).2
      · exact hv.1 c h
      · exact (hw4 c h).2
    rw [ParseEnvFile_single _ hnl, hdata,
      parseEnvLine_core k v ws1.data ws2.data ws3.data ws4.data
        (fun c hc => (hw1 c hc).1) (fun c hc => (hw2 c hc).1)
        (fun c hc => (hw3 c hc).1) (fun c hc => (hw4 c hc).1) hk hv.2]
  · intro ws v hws hv
    have hdata : (ws ++ "=" ++ v).data = ws.data ++ ('=' :: v.data) := by
      simp [List.append_assoc]
    have hnl : noNL (ws ++ "=" ++ v) := by
      unfold noNL
      rw [hdata]
      intro c hc
      simp only [List.mem_append, List.mem_cons] at hc
      rcases hc with h | h | h
      · exact (hws c h).2
      · subst h; decide
      · exact hv c h
    rw [ParseEnvFile_single _ hnl, hdata]
    have hline : parseEnvLine (ws.data ++ ('=' :: v.data)) = none := by
      simp only [parseEnvLine]
      rw [trim_append_left _ _ (fun c hc => (hws c hc).1),
        trim_cons_nonspace '=' v.data (by decide)]
      simp only [List.isEmpty_cons, Bool.false_eq_true, if_false, List.headD_cons]
      rw [if_neg (by decide)]
      have hdw : List.dropWhile (fun c => !(c == '=')) ('=' :: rtrimChars v.data) =
          '=' :: rtrimChars v.data := by
        rw [List.dropWhile_cons]
        simp
      rw [hdw]
      have htw : List.takeWhile (fun c => !(c == '=')) ('=' :: rtrimChars v.data) = [] := by
        rw [List.takeWhile_cons]
        simp
      rw [htw]
      rfl
    rw [hline]
  · intro k w hk hw
    constructor
    · have hdata : (k ++ "=" ++ (⟨quoteD :: (w.data ++ [quoteD])⟩ : String)).data =
          k.data ++ ('=' :: (quoteD :: (w.data ++ [quoteD]))) := by
        simp [List.append_assoc]
      have hnl : noNL (k ++ "=" ++ (⟨quoteD :: (w.data ++ [quoteD])⟩ : String)) := by
        unfold noNL
        rw [hdata]
        intro c hc
        simp only [List.mem_append, List.mem_cons] at hc
        rcases hc with h | h | h | h | h
        · exact nonspace_ne_nl (hk.2.2 c h).1
        · subst h; decide
        · subst h; decide
        · exact hw c h
        · rcases h with h | h
          · subst h; decide
          · cases h
      rw [ParseEnvFile_single _ hnl, hdata]
      have hshape : k.data ++ ('=' :: (quoteD :: (w.data ++ [quoteD]))) =
          ([] : List Char) ++ (k.data ++ (([] : List Char) ++
            ('=' :: (([] : List Char) ++
              ((⟨quoteD :: (w.data ++ [quoteD])⟩ : String).data ++ ([] : List Char)))))) := by
        simp
      rw [hshape, parseEnvLine_core k ⟨quoteD :: (w.data ++ [quoteD])⟩ [] [] [] []
        (by simp) (by simp) (by simp) (by simp) hk
        (trim_fixed_ends quoteD quoteD w.data (by decide) (by decide))]
      have huq : unquoteEnvValue ⟨quoteD :: (w.data ++ [quoteD])⟩ = w := by
        unfold unquoteEnvValue
        rw [show (⟨quoteD :: (w.data ++ [quoteD])⟩ : String).data =
          quoteD :: (w.data ++ [quoteD]) from rfl]
        rw [unquote_wrapped quoteD w.data (Or.inl rfl)]
      rw [huq]
    · have hdata : (k ++ "=" ++ (⟨quoteS :: (w.data ++ [quoteS])⟩ : String)).data =
          k.data ++ ('=' :: (quoteS :: (w.data ++ [quoteS]))) := by
        simp [List.append_assoc]
      have hnl : noNL (k ++ "=" ++ (⟨quoteS :: (w.data ++ [quoteS])⟩ : String)) := by
        unfold noNL
        rw [hdata]
        intro c hc
        simp only [List.mem_append, List.mem_cons] at hc
        rcases hc with h | h | h | h | h
        · exact nonspace_ne_nl (hk.2.2 c h).1
        · subst h; decide
        · subst h; decide
        · exact hw c h
        · rcases h with h | h
          · subst h; decide
          · cases h
      rw [ParseEnvFile_single _ hnl, hdata]
      have hshape : k.data ++ ('=' :: (quoteS :: (w.data ++ [quoteS]))) =
          ([] : List Char) ++ (k.data ++ (([] : List Char) ++
            ('=' :: (([] : List Char) ++
              ((⟨quoteS :: (w.data ++ [quoteS])⟩ : String).data ++ ([] : List Char)))))) := by
        simp
      rw [hshape, parseEnvLine_core k ⟨quoteS :: (w.data ++ [quoteS])⟩ [] [] [] []
        (by simp) (by simp) (by simp) (by simp) hk
        (trim_fixed_ends quoteS quoteS w.data (by decide) (by decide))]
      have huq : unquoteEnvValue ⟨quoteS :: (w.data ++ [quoteS])⟩ = w := by
        unfold unquoteEnvValue
        rw [show (⟨quoteS :: (w.data ++ [quoteS])⟩ : String).data =
          quoteS :: (w.data ++ [quoteS]) from rfl]
        rw [unquote_wrapped quoteS w.data (Or.inr rfl)]
      rw [huq]

theorem exitbox_C6_env_parse_witness :
    ParseEnvFile (" " ++ "API_KEY" ++ " " ++ "=" ++ " " ++ "a=b" ++ " ") =
      [("API_KEY", unquoteEnvValue "a=b")] ∧
    ParseEnvFile "# note" = [] ∧
    ParseEnvFile ("  " ++ "=" ++ "x") = [] ∧
    ParseEnvFile "   " = [] :=
  ⟨exitbox_C6_env_parse.2.2.1 " " " " " " " " "API_KEY" "a=b"
      (by decide) (by decide) (by decide) (by decide) (by decide) (by decide),
    exitbox_C6_env_parse.2.1 "# note" (by decide) (by decide),
    exitbox_C6_env_parse.2.2.2.1 "  " "x" (by decide) (by decide),
    exitbox_C6_env_parse.1 "   " (by decide)⟩

/-- Claim C9: round-trip of the .env serializer and parser. For any map
with clean keys and values, parsing the exported text yields exactly the
exported pair list, which is the same map (a permutation of the input
association list), and the exporter emits keys in ascending sorted order. -/
theorem exitbox_C9_env_roundtrip (m : List (String × String))
    (hnd : (m.map Prod.fst).Nodup)
    (hclean : ∀ p ∈ m, cleanEnvKey p.1 ∧ cleanEnvVal p.2 ∧ ¬ quoteWrapped p.2) :
    ParseEnvFile (ExportEnvFormat m) = exportPairs m ∧
    (exportPairs m).Perm m ∧
    List.Sorted (fun a b : String => a ≤ b) (exportKeys m) := by
  refine ⟨env_roundtrip_aux m hnd hclean, exportPairs_perm m hnd, ?_⟩
  unfold exportKeys
  exact List.sorted_insertionSort _ _

theorem exitbox_C9_env_roundtrip_witness :
    ParseEnvFile (ExportEnvFormat [("B", "2"), ("A", "1")]) =
      exportPairs [("B", "2"), ("A", "1")] ∧
    (exportPairs [("B", "2"), ("A", "1")]).Perm [("B", "2"), ("A", "1")] ∧
    List.Sorted (fun a b : String => a ≤ b) (exportKeys [("B", "2"), ("A", "1")]) :=
  exitbox_C9_env_roundtrip [("B", "2"), ("A", "1")] (by decide) (by decide)

/-! ## Claim C2: the project-image freshness check -/

/-- Claim C2 (corrected): the original claim says that a missing Created
timestamp is treated as newer and forces a rebuild; the code does the
opposite. This counterexample evaluates the decision at an existing,
non-forced child image whose parent timestamp is missing: the build is
skipped, not performed. -/
theorem exitbox_C2_counterexample :
    projectBuildDecision false true "" "2026-01-02T03:04:05Z" = BuildAction.skip := by
  decide

/-- Claim C2 (amended): before skipping a build of an existing child
image without force, the parent (tools) Created timestamp is compared to
the child (project) timestamp and the image is rebuilt exactly when the
parent is strictly newer; when either timestamp is missing the check is
inconclusive and the existing child is kept (skip); a forced build or a
missing child image always builds. -/
theorem exitbox_C2_freshness (toolsCreated projectCreated : String) :
    (∀ ex, projectBuildDecision true ex toolsCreated projectCreated = BuildAction.build) ∧
    (∀ f, projectBuildDecision f false toolsCreated projectCreated = BuildAction.build) ∧
    (toolsCreated = "" ∨ projectCreated = "" →
      projectBuildDecision false true toolsCreated projectCreated = BuildAction.skip) ∧
    (toolsCreated ≠ "" → projectCreated ≠ "" →
      (projectBuildDecision false true toolsCreated projectCreated = BuildAction.build ↔
        projectCreated < toolsCreated)) := by
  refine ⟨?_, ?_, ?_, ?_⟩
  · intro ex
    simp [projectBuildDecision]
  · intro f
    cases f <;> simp [projectBuildDecision]
  · intro h
    rcases h with h | h <;> simp [projectBuildDecision, h]
  · intro h1 h2
    simp only [projectBuildDecision, Bool.not_false, Bool.true_and, if_true]
    by_cases hle : toolsCreated ≤ projectCreated
    · simp [h1, h2, hle, not_lt.2 hle]
    · simp [h1, h2, hle, lt_of_not_le hle]

theorem exitbox_C2_freshness_witness :
    projectBuildDecision true true "2026-01-01" "2026-01-02" = BuildAction.build ∧
    projectBuildDecision false false "2026-01-01" "2026-01-02" = BuildAction.build ∧
    projectBuildDecision false true "" "2026-01-02" = BuildAction.skip ∧
    (projectBuildDecision false true "2026-01-03" "2026-01-02" = BuildAction.build ↔
      ("2026-01-02" : String) < "2026-01-03") :=
  ⟨(exitbox_C2_freshness "2026-01-01" "2026-01-02").1 true,
    (exitbox_C2_freshness "2026-01-01" "2026-01-02").2.1 false,
    (exitbox_C2_freshness "" "2026-01-02").2.2.1 (Or.inl rfl),
    (exitbox_C2_freshness "2026-01-03" "2026-01-02").2.2.2 (by decide) (by decide)⟩

/-! ## Claim C3: workspace resolution chain -/

/-- Claim C3: with a non-empty override, the resolver returns the named
workspace whenever it is among the catalog items, beating every other
rule, and fails when no item has that name; with an empty override and
no directory-scoped, active or default match, it returns the first item,
if any, and nil for an empty catalog. ResolveActiveWorkspace is modelled
from the spec (its body is absent from src). -/
theorem exitbox_C3_resolver (cfg : Config) (projectDir ov : String) :
    (ov ≠ "" →
      (∀ ws ∈ cfg.workspaces.items, ws.name = ov →
        ∃ a, ResolveActiveWorkspace cfg projectDir ov = .ok (some a) ∧
          a.workspace.name = ov ∧ a.workspace ∈ cfg.workspaces.items) ∧
      ((∀ ws ∈ cfg.workspaces.items, ws.name ≠ ov) →
        ∃ e, ResolveActiveWorkspace cfg projectDir ov = .error e)) ∧
    (ov = "" →
      directoryMatch cfg.workspaces.items projectDir = none →
      (cfg.workspaces.active = "" ∨
        findWorkspace cfg.workspaces.items cfg.workspaces.active = none) →
      (cfg.settings.defaultWorkspace = "" ∨
        findWorkspace cfg.workspaces.items cfg.settings.defaultWorkspace = none) →
      ResolveActiveWorkspace cfg projectDir ov =
        .ok (cfg.workspaces.items.head?.map (fun ws => ⟨workspaceScope ws, ws⟩))) := by
  constructor
  · intro hov
    constructor
    · intro ws hmem hname
      obtain ⟨w, hw⟩ : ∃ w, findWorkspace cfg.workspaces.items ov = some w := by
        have hsome : (cfg.workspaces.items.find? (fun x => x.name == ov)).isSome :=
          List.find?_isSome.2 ⟨ws, hmem, by simp [hname]⟩
        exact Option.isSome_iff_exists.1 hsome
      refine ⟨⟨workspaceScope w, w⟩, ?_, ?_, ?_⟩
      · unfold ResolveActiveWorkspace
        rw [if_pos hov, hw]
      · have := List.find?_some hw
        simpa using this
      · exact List.mem_of_find?_eq_some hw
    · intro hall
      have hnone : findWorkspace cfg.workspaces.items ov = none :=
        List.find?_eq_none.2 (fun x hx => by simp [hall x hx])
      refine ⟨"unknown workspace: " ++ ov, ?_⟩
      unfold ResolveActiveWorkspace
      rw [if_pos hov, hnone]
  · intro hov hdir hact hdef
    unfold ResolveActiveWorkspace
    rw [if_neg (by simp [hov]), hdir]
    have ha : (if cfg.workspaces.active ≠ "" then
        findWorkspace cfg.workspaces.items cfg.workspaces.active else none) = none := by
      rcases hact with h | h
      · simp [h]
      · by_cases hne : cfg.workspaces.active = ""
        · simp [hne]
        · simp [hne, h]
    have hd : (if cfg.settings.defaultWorkspace ≠ "" then
        findWorkspace cfg.workspaces.items cfg.settings.defaultWorkspace else none) = none := by
      rcases hdef with h | h
      · simp [h]
      · by_cases hne : cfg.settings.defaultWorkspace = ""
        · simp [hne]
        · simp [hne, h]
    rw [ha, hd]

theorem exitbox_C3_resolver_witness :
    (∃ a, ResolveActiveWorkspace cfgOverride "/d" "work" =
        .ok (some a) ∧ a.workspace.name = "work" ∧
        a.workspace ∈ cfgOverride.workspaces.items) ∧
    (∃ e, ResolveActiveWorkspace cfgSolo "/d" "ghost" = .error e) ∧
    ResolveActiveWorkspace cfgPair "/d" "" =
      .ok ((cfgPair.workspaces.items.head?).map (fun ws => ⟨workspaceScope ws, ws⟩)) :=
  ⟨((exitbox_C3_resolver cfgOverride "/d" "work").1 (by decide)).1
      { name := "work" } (by simp [cfgOverride]) rfl,
    ((exitbox_C3_resolver cfgSolo "/d" "ghost").1 (by decide)).2 (by decide),
    (exitbox_C3_resolver cfgPair "/d" "").2 rfl (by decide) (by decide) (by decide)⟩

/-! ## Hash format lemmas -/

theorem sha256_length (msg : List Nat) : (sha256 msg).length = 32 := by
  simp [sha256, wordBytes]

theorem bytesToHex_length (l : List Nat) : (bytesToHex l).length = 2 * l.length := by
  unfold bytesToHex
  show (l.flatMap (fun b => [hexDigit (b / 16), hexDigit (b % 16)])).length = 2 * l.length
  induction l with
  | nil => rfl
  | cons b bs ih =>
    simp only [List.flatMap_cons, List.length_append, ih, List.length_cons]
    simp
    omega

theorem hexDigit_mem (n : Nat) : hexDigit n ∈ hexDigits := by
  unfold hexDigit
  by_cases h : n < hexDigits.length
  · rw [List.getD_eq_getElem _ _ h]
    exact List.getElem_mem h
  · rw [List.getD_eq_default _ _ (by omega)]
    simp [hexDigits]

theorem bytesToHex_chars (l : List Nat) : ∀ c ∈ (bytesToHex l).data, c ∈ hexDigits := by
  intro c hc
  unfold bytesToHex at hc
  have hc2 : c ∈ l.flatMap (fun b => [hexDigit (b / 16), hexDigit (b % 16)]) := hc
  obtain ⟨b, _, hcb⟩ := List.mem_flatMap.1 hc2
  rcases List.mem_cons.1 hcb with hz | hz
  · exact hz ▸ hexDigit_mem _
  · have : c = hexDigit (b % 16) := by simpa using hz
    exact this ▸ hexDigit_mem _

theorem sha256Hex16_length (s : String) : (sha256Hex16 s).length = 16 := by
  unfold sha256Hex16
  rw [bytesToHex_length, List.length_take, sha256_length]
  decide

theorem sha256Hex16_chars (s : String) : ∀ c ∈ (sha256Hex16 s).data, c ∈ hexDigits := by
  unfold sha256Hex16
  exact bytesToHex_chars _

/-! ## Claims C1 and C10: WorkspaceHash -/

set_option maxRecDepth 40000

/-- Claim C1: WorkspaceHash hashes exactly the resolved workspace scope,
name, development profiles and packages plus the session tools (16 hex
characters of SHA-256), is independent of the global tools config
(cfg.tools), and in particular two configs identical except for packages
[] versus [jq] hash differently, both hashes having length 16. -/
theorem exitbox_C1_workspace_hash :
    (∀ (cfg : Config) (t : ToolsConfig) (d o : String),
      WorkspaceHash { cfg with tools := t } d o = WorkspaceHash cfg d o) ∧
    (∀ (cfg : Config) (d o : String) (a : ActiveWorkspace),
      ResolveActiveWorkspace cfg d o = .ok (some a) →
      WorkspaceHash cfg d o = sha256Hex16 (String.intercalate ","
        ([a.scope, a.workspace.name] ++ a.workspace.development ++
          a.workspace.packages ++ SessionTools))) ∧
    (WorkspaceHash cfgPkgsA "/p" "" ≠ WorkspaceHash cfgPkgsB "/p" "" ∧
      (WorkspaceHash cfgPkgsA "/p" "").length = 16 ∧
      (WorkspaceHash cfgPkgsB "/p" "").length = 16) := by
  refine ⟨?_, ?_, ?_, sha256Hex16_length _, sha256Hex16_length _⟩
  · intro cfg t d o
    cases cfg
    rfl
  · intro cfg d o a h
    unfold WorkspaceHash
    rw [h]
  · decide

theorem exitbox_C1_workspace_hash_witness :
    WorkspaceHash { cfgPkgsA with tools := { user := ["git"] } } "/p" "" =
      WorkspaceHash cfgPkgsA "/p" "" ∧
    WorkspaceHash cfgPkgsA "/p" "" = sha256Hex16 (String.intercalate ","
      ([ScopeGlobal, "w"] ++ ["go"] ++ ([] : List String) ++ SessionTools)) :=
  ⟨exitbox_C1_workspace_hash.1 cfgPkgsA { user := ["git"] } "/p" "",
    exitbox_C1_workspace_hash.2.1 cfgPkgsA "/p" ""
      ⟨ScopeGlobal, { name := "w", development := ["go"], packages := [] }⟩ rfl⟩

/-- Claim C10: WorkspaceHash is total and discards resolver errors: when
resolution fails it hashes as if no workspace were active, and for every
input the result is a 16-character string of lowercase hex digits. -/
theorem exitbox_C10_hash_total (cfg : Config) (d o : String) :
    (∀ e, ResolveActiveWorkspace cfg d o = .error e →
      WorkspaceHash cfg d o = sha256Hex16 (String.intercalate "," SessionTools)) ∧
    (WorkspaceHash cfg d o).length = 16 ∧
    (∀ c ∈ (WorkspaceHash cfg d o).data, c ∈ hexDigits) := by
  refine ⟨?_, ?_, ?_⟩
  · intro e he
    unfold WorkspaceHash
    rw [he]
    rfl
  · exact sha256Hex16_length _
  · exact sha256Hex16_chars _

theorem exitbox_C10_hash_total_witness :
    WorkspaceHash cfgGhost "/d" "ghost" =
      sha256Hex16 (String.intercalate "," SessionTools) ∧
    (WorkspaceHash cfgGhost "/d" "ghost").length = 16 :=
  ⟨(exitbox_C10_hash_total cfgGhost "/d" "ghost").1 "unknown workspace: ghost" rfl,
    (exitbox_C10_hash_total cfgGhost "/d" "ghost").2.1⟩

/-! ## Claim C4: proxy configuration domain ACL -/

theorem dedupAux_mem (l seen : List String) (a : String) :
    a ∈ dedupAux seen l ↔ a ∈ l ∧ a ∉ seen := by
  induction l generalizing seen with
  | nil => simp [dedupAux]
  | cons s rest ih =>
    unfold dedupAux
    by_cases hs : s ∈ seen
    · rw [if_pos hs, ih]
      constructor
      · rintro ⟨h1, h2⟩
        exact ⟨List.mem_cons_of_mem _ h1, h2⟩
      · rintro ⟨h1, h2⟩
        rcases List.mem_cons.1 h1 with hz | hz
        · exact absurd (hz ▸ hs) h2
        · exact ⟨hz, h2⟩
    · rw [if_neg hs]
      constructor
      · intro h
        rcases List.mem_cons.1 h with hz | hz
        · exact ⟨hz ▸ List.mem_cons_self _ _, hz ▸ hs⟩
        · have := (ih (s :: seen)).1 hz
          exact ⟨List.mem_cons_of_mem _ this.1,
            fun hx => this.2 (List.mem_cons_of_mem _ hx)⟩
      · rintro ⟨h1, h2⟩
        rcases List.mem_cons.1 h1 with hz | hz
        · exact hz ▸ List.mem_cons_self _ _
        · by_cases has : a = s
          · exact has ▸ List.mem_cons_self _ _
          · exact List.mem_cons_of_mem _ ((ih (s :: seen)).2
              ⟨hz, fun hx => (List.mem_cons.1 hx).elim has h2⟩)

theorem dedupAux_nodup (l seen : List String) : (dedupAux seen l).Nodup := by
  induction l generalizing seen with
  | nil => exact List.nodup_nil
  | cons s rest ih =>
    unfold dedupAux
    by_cases hs : s ∈ seen
    · rw [if_pos hs]
      exact ih seen
    · rw [if_neg hs]
      refine List.nodup_cons.2 ⟨?_, ih (s :: seen)⟩
      intro hmem
      exact ((dedupAux_mem rest (s :: seen) s).1 hmem).2 (List.mem_cons_self _ _)

theorem dedup_mem (l : List String) (a : String) : a ∈ dedup l ↔ a ∈ l := by
  unfold dedup
  rw [dedupAux_mem]
  simp

theorem dedup_nodup (l : List String) : (dedup l).Nodup := dedupAux_nodup l []

theorem string_append_left_cancel {a x y : String} (h : a ++ x = a ++ y) : x = y := by
  have hd : a.data ++ x.data = a.data ++ y.data := by
    have := congrArg String.data h
    simpa using this
  exact String.ext (List.append_cancel_left hd)

theorem aclLine_count (domains extraURLs : List String) (d : String)
    (hd : d ∈ dedup ((domains ++ extraURLs).filter (fun s => trimSpace s ≠ ""))) :
    (squidDomainACLLines domains extraURLs).count (domainACLPrefix ++ d) = 1 := by
  unfold squidDomainACLLines squidDomains
  have hne : dedup ((domains ++ extraURLs).filter (fun s => trimSpace s ≠ "")) ≠ [] := by
    intro hx
    rw [hx] at hd
    cases hd
  simp only [List.isEmpty_eq_true, hne, if_false]
  rw [List.count_map_of_injective _ (fun x => domainACLPrefix ++ x)
    (fun x y hxy => string_append_left_cancel hxy) d]
  exact List.count_eq_one_of_mem (dedup_nodup _) hd

theorem isPrefixOf_append_self (xs ys : List Char) : xs.isPrefixOf (xs ++ ys) = true := by
  induction xs with
  | nil => simp [List.isPrefixOf]
  | cons a as ih => simp [List.isPrefixOf, ih]

theorem aclPre_ne (f d : String) (h : domainACLPrefix.data.isPrefixOf f.data = false) :
    domainACLPrefix ++ d ≠ f := by
  intro hx
  have hdata : domainACLPrefix.data ++ d.data = f.data := by
    have := congrArg String.data hx
    simpa using this
  rw [← hdata, isPrefixOf_append_self] at h
  cases h

theorem append_ne_of_take_ne (a b x y : String) (n : Nat) (ha : n ≤ a.data.length)
    (hb : n ≤ b.data.length) (hne : a.data.take n ≠ b.data.take n) : a ++ x ≠ b ++ y := by
  intro h
  have hd : a.data ++ x.data = b.data ++ y.data := by
    have := congrArg String.data h
    simpa using this
  apply hne
  calc a.data.take n = (a.data ++ x.data).take n := (List.take_append_of_le_length ha).symm
    _ = (b.data ++ y.data).take n := by rw [hd]
    _ = b.data.take n := List.take_append_of_le_length hb

/-- Claim C4: the rendered proxy configuration contains one destination
ACL line, dot-prefixed, for each domain of the deduplicated union of the
workspace allowlist and the session extras (blank entries skipped), and
with both inputs empty a single non-resolvable sentinel domain line. The
renderer is modelled from the spec (its body is absent from src); the
directive texts come from the tests in src/unnamed/part_000. -/
theorem exitbox_C4_squid_domains (subnet : String) (A B : List String) :
    (∀ d ∈ dedup ((A ++ B).filter (fun s => trimSpace s ≠ "")),
      (squidConfigLines subnet A B).count (domainACLPrefix ++ d) = 1) ∧
    (A = [] → B = [] → squidDomainACLLines A B = [domainACLPrefix ++ blockAllSentinel]) ∧
    GenerateSquidConfig subnet A B = String.intercalate "\n" (squidConfigLines subnet A B) := by
  refine ⟨?_, ?_, rfl⟩
  · intro d hd
    unfold squidConfigLines
    rw [List.count_append, List.count_append]
    have hpre : List.count (domainACLPrefix ++ d)
        ["http_port 3128", "acl agent_sources src " ++ subnet, "acl SSL_ports port 443",
          "acl Safe_ports port 80", "acl Safe_ports port 443", "acl CONNECT method CONNECT"]
        = 0 := by
      rw [List.count_eq_zero]
      intro hmem
      simp only [List.mem_cons, List.not_mem_nil, or_false] at hmem
      rcases hmem with h | h | h | h | h | h
      · exact aclPre_ne _ d (by decide) h
      · exact append_ne_of_take_ne domainACLPrefix "acl agent_sources src " d subnet 6
          (by decide) (by decide) (by decide) h
      · exact aclPre_ne _ d (by decide) h
      · exact aclPre_ne _ d (by decide) h
      · exact aclPre_ne _ d (by decide) h
      · exact aclPre_ne _ d (by decide) h
    have hpost : List.count (domainACLPrefix ++ d)
        ["http_access deny !Safe_ports", "http_access deny CONNECT !SSL_ports",
          "http_access allow localhost", "http_access allow agent_sources allowed_domains",
          "http_access deny all", "forwarded_for off", "via off"] = 0 := by
      rw [List.count_eq_zero]
      intro hmem
      simp only [List.mem_cons, List.not_mem_nil, or_false] at hmem
      rcases hmem with h | h | h | h | h | h | h <;> exact aclPre_ne _ d (by decide) h
    rw [hpre, hpost, aclLine_count A B d hd]
  · intro hA hB
    subst hA
    subst hB
    rfl

theorem exitbox_C4_squid_domains_witness :
    (squidConfigLines "10.89.0.0/24" ["example.com", "example.com"] ["example.com"]).count
      (domainACLPrefix ++ "example.com") = 1 ∧
    squidDomainACLLines [] [] = [domainACLPrefix ++ blockAllSentinel] :=
  ⟨(exitbox_C4_squid_domains "10.89.0.0/24" ["example.com", "example.com"] ["example.com"]).1
      "example.com" (by decide),
    (exitbox_C4_squid_domains "10.89.0.0/24" [] []).2.1 rfl rfl⟩

/-! ## Claim C7: session selector resolution -/

theorem resolveLoop_spec (sel : String) (entries : List SessEntry) (pm : List String)
    (hval : sessValid entries) :
    resolveLoop sel entries pm =
      match entries.find? (exactPred sel) with
      | some e => (entryName e, true, none)
      | none => resolveFinish (pm ++ (entries.filter
          (fun e => strStartsWith e.dirName sel)).map entryName) := by
  induction entries generalizing pm with
  | nil => simp [resolveLoop]
  | cons e rest ih =>
    obtain ⟨hdir, hsome, hname, hdirname⟩ := hval e (by simp)
    obtain ⟨raw, hraw⟩ := Option.isSome_iff_exists.1 hsome
    have hen : entryName e = trimSpace raw := by
      unfold entryName
      rw [hraw]
      rfl
    have hrest : sessValid rest := fun x hx => hval x (by simp [hx])
    unfold resolveLoop
    rw [hdir, hraw]
    simp only [Bool.not_true, Bool.false_eq_true, if_false]
    by_cases hblank : trimSpace raw = ""
    · exact absurd (hen.trans hblank) hname
    · rw [if_neg hblank]
      by_cases hexact : entryName e = sel ∨ e.dirName = sel
      · rw [if_pos (by rw [← hen]; exact hexact)]
        have hfind : (e :: rest).find? (exactPred sel) = some e :=
          List.find?_cons_of_pos _ (by
            unfold exactPred
            rcases hexact with h | h <;> simp [h])
        rw [hfind]
        simp [hen]
      · rw [if_neg (by rw [hen] at hexact; exact hexact)]
        have hfind : (e :: rest).find? (exactPred sel) = rest.find? (exactPred sel) :=
          List.find?_cons_of_neg _ (by
            unfold exactPred
            push_neg at hexact
            simp [hexact.1, hexact.2])
        rw [hfind]
        by_cases hpre : strStartsWith e.dirName sel = true
        · rw [if_pos hpre]
          rw [ih (pm ++ [trimSpace raw]) hrest]
          cases hfr : rest.find? (exactPred sel) with
          | some x => rfl
          | none =>
            have hfilter : (e :: rest).filter (fun x => strStartsWith x.dirName sel) =
                e :: rest.filter (fun x => strStartsWith x.dirName sel) := by
              simp [List.filter_cons, hpre]
            rw [hfilter]
            simp [hen, List.append_assoc]
        · rw [if_neg hpre]
          rw [ih pm hrest]
          cases hfr : rest.find? (exactPred sel) with
          | some x => rfl
          | none =>
            have hfilter : (e :: rest).filter (fun x => strStartsWith x.dirName sel) =
                rest.filter (fun x => strStartsWith x.dirName sel) := by
              simp [List.filter_cons, hpre]
            rw [hfilter]

/-- Claim C7 (corrected): the claim as stated quantifies over every
selector. The empty selector is a prefix of the single session directory
id in this store, so the claim demands that it resolve to that session
with found true; the code instead returns not-found for a selector that
is empty after trimming. -/
theorem exitbox_C7_counterexample :
    strStartsWith "id_abc123" "" = true ∧
    (prefixStore.filter (fun e => strStartsWith e.dirName "")).length = 1 ∧
    ResolveSelector prefixStore "" = ("", false, none) := by
  decide

/-- Claim C7 (amended): over a well-formed session store (directories
with readable non-blank names) and a selector that is non-empty after
trimming, an exact match on a session name or directory id returns the
name of that session with found true; with no exact match, a selector
that is a prefix of exactly one directory id returns the name of that
session, a prefix of two or more is the ambiguous-selector error, and no prefix
match is not-found; a selector that trims to empty is always not-found. -/
theorem exitbox_C7_resolve_selector (entries : List SessEntry) (selector : String)
    (hval : sessValid entries) :
    (∀ e, entries.find? (exactPred (trimSpace selector)) = some e →
      ResolveSelector entries selector = (entryName e, true, none)) ∧
    (trimSpace selector ≠ "" →
      entries.find? (exactPred (trimSpace selector)) = none →
      ((∀ n, (entries.filter
            (fun e => strStartsWith e.dirName (trimSpace selector))).map entryName = [n] →
          ResolveSelector entries selector = (n, true, none)) ∧
        (2 ≤ ((entries.filter
            (fun e => strStartsWith e.dirName (trimSpace selector))).map entryName).length →
          ∃ msg, ResolveSelector entries selector = ("", false, some msg)) ∧
        (entries.filter (fun e => strStartsWith e.dirName (trimSpace selector)) = [] →
          ResolveSelector entries selector = ("", false, none)))) ∧
    (trimSpace selector = "" → ResolveSelector entries selector = ("", false, none)) := by
  refine ⟨?_, ?_, ?_⟩
  · intro e hfind
    have hmem := List.mem_of_find?_eq_some hfind
    obtain ⟨hdir, hsome, hname, hdirname⟩ := hval e hmem
    have hpred := List.find?_some hfind
    have hsel : trimSpace selector ≠ "" := by
      unfold exactPred at hpred
      rcases Bool.or_eq_true_iff.1 hpred with h | h
      · intro hx
        exact hname ((eq_of_beq h).trans hx)
      · intro hx
        exact hdirname ((eq_of_beq h).trans hx)
    unfold ResolveSelector
    rw [if_neg hsel, resolveLoop_spec _ _ _ hval, hfind]
  · intro hsel hnone
    unfold ResolveSelector
    rw [if_neg hsel, resolveLoop_spec _ _ _ hval, hnone]
    refine ⟨?_, ?_, ?_⟩
    · intro n hn
      rw [List.nil_append, hn]
      rfl
    · intro hlen
      refine ⟨"ambiguous session id", ?_⟩
      rw [List.nil_append]
      unfold resolveFinish
      rw [if_neg (by omega), if_pos (by omega)]
    · intro hfil
      rw [List.nil_append, hfil]
      rfl
  · intro hsel
    unfold ResolveSelector
    rw [if_pos hsel]

theorem exitbox_C7_resolve_selector_witness :
    ResolveSelector sessStoreW "id_abc123" = ("session-a", true, none) ∧
    ResolveSelector sessStoreW "id_abc" = ("session-a", true, none) ∧
    (∃ msg, ResolveSelector sessStoreAmb "id_abc" = ("", false, some msg)) ∧
    ResolveSelector sessStoreW "zzz" = ("", false, none) :=
  ⟨(exitbox_C7_resolve_selector sessStoreW "id_abc123" (by decide)).1
      ⟨"id_abc123", true, some "session-a"⟩ (by decide),
    ((exitbox_C7_resolve_selector sessStoreW "id_abc" (by decide)).2.1
      (by decide) (by decide)).1 "session-a" (by decide),
    ((exitbox_C7_resolve_selector sessStoreAmb "id_abc" (by decide)).2.1
      (by decide) (by decide)).2.1 (by decide),
    ((exitbox_C7_resolve_selector sessStoreW "zzz" (by decide)).2.1
      (by decide) (by decide)).2.2 (by decide)⟩

/-! ## Claims C5 and C8: the secret vault -/

/-- Claim C5 (corrected) counterexample: Store.Set does not guard the
reserved sentinel key, so setting __vault_verify__ to another value
breaks the password-verification test and a later get with the correct
password fails; the claim as stated over every key is therefore false. -/
theorem exitbox_C5_counterexample :
    (vaultInit emptyVault "pw" (List.replicate 32 0) false false).2 = none ∧
    vaultQuickSet (vaultInit emptyVault "pw" (List.replicate 32 0) false false).1 "pw"
      verifyKey "x" = .ok sentinelOverwrittenVault ∧
    vaultQuickGet sentinelOverwrittenVault "pw" verifyKey =
      .error "wrong password or corrupted vault" :=
  ⟨rfl, rfl, rfl⟩

/-- Claim C5 (amended): for every key other than the reserved sentinel
__vault_verify__, after init and a set of that key, reopening with the
same password reads the value back (durability across restarts), and
opening with any different password fails because the sentinel entry
cannot be read or does not match. The Argon2id KDF and the encrypted
Badger store are modelled abstractly (injective key derivation,
authenticated encryption). -/
theorem exitbox_C5_vault_roundtrip (pw k v pw' : String) (salt : List Nat)
    (hsalt : salt.length = saltLen) (hk : k ≠ verifyKey) (hpw : pw' ≠ pw) :
    ∃ st1 st2,
      vaultInit emptyVault pw salt false false = (st1, none) ∧
      vaultQuickSet st1 pw k v = .ok st2 ∧
      vaultQuickGet st2 pw k = .ok v ∧
      (∃ e, vaultOpen st2 pw' = .error e) := by
  refine ⟨⟨some salt, some ⟨(pw, salt), [(verifyKey, verifyValue)]⟩⟩,
    ⟨some salt, some ⟨(pw, salt), [(verifyKey, verifyValue), (k, v)]⟩⟩, ?_, ?_, ?_, ?_⟩
  · rfl
  · have hopen : vaultOpen ⟨some salt, some ⟨(pw, salt), [(verifyKey, verifyValue)]⟩⟩ pw =
        .ok ⟨⟨(pw, salt), [(verifyKey, verifyValue)]⟩, (pw, salt)⟩ := by
      simp [vaultOpen, hsalt, storeGet, deriveKey]
    unfold vaultQuickSet
    rw [hopen]
    have hins : envInsert [(verifyKey, verifyValue)] k v =
        [(verifyKey, verifyValue), (k, v)] := by
      rw [envInsert_fresh _ _ _ (by intro q hq; simp at hq; simp [hq, Ne.symm hk])]
      rfl
    simp [hins]
  · have hopen : vaultOpen ⟨some salt, some ⟨(pw, salt), [(verifyKey, verifyValue), (k, v)]⟩⟩ pw =
        .ok ⟨⟨(pw, salt), [(verifyKey, verifyValue), (k, v)]⟩, (pw, salt)⟩ := by
      simp [vaultOpen, hsalt, storeGet, deriveKey]
    unfold vaultQuickGet
    rw [hopen]
    simp [storeGet, Ne.symm hk]
  · refine ⟨"wrong password or corrupted vault", ?_⟩
    simp [vaultOpen, hsalt, storeGet, deriveKey, hpw]

theorem exitbox_C5_vault_roundtrip_witness :
    (List.replicate 32 0).length = saltLen ∧ "API_KEY" ≠ verifyKey ∧
    ("other" : String) ≠ "pw" ∧
    ∃ st1 st2,
      vaultInit emptyVault "pw" (List.replicate 32 0) false false = (st1, none) ∧
      vaultQuickSet st1 "pw" "API_KEY" "secret" = .ok st2 ∧
      vaultQuickGet st2 "pw" "API_KEY" = .ok "secret" ∧
      (∃ e, vaultOpen st2 "other" = .error e) :=
  ⟨by decide, by decide, by decide,
    exitbox_C5_vault_roundtrip "pw" "API_KEY" "secret" "other" (List.replicate 32 0)
      (by decide) (by decide) (by decide)⟩

/-- Claim C8: Init on an already-initialized workspace fails with the
already-exists error and leaves the on-disk state untouched; and when
Init fails after writing the salt file, because opening the new database
or writing the verification entry fails, the salt file is removed again,
so IsInitialized remains false, and the database directory is either the
one that was already on disk or has been removed. -/
theorem exitbox_C8_init_atomic (st : VaultState) (pw : String) (salt : List Nat)
    (f1 f2 : Bool) :
    (vaultIsInit st = true →
      vaultInit st pw salt f1 f2 = (st, some "vault already exists")) ∧
    (vaultIsInit st = false → (vaultInit st pw salt f1 f2).2 ≠ none →
      (vaultInit st pw salt f1 f2).1.salt = none ∧
      vaultIsInit (vaultInit st pw salt f1 f2).1 = false ∧
      ((vaultInit st pw salt f1 f2).1.db = st.db ∨
        (vaultInit st pw salt f1 f2).1.db = none)) := by
  unfold vaultIsInit vaultInit
  constructor
  · intro hinit
    simp [hinit]
  · intro hnot hfail
    cases f1 with
    | true => simp [hnot]
    | false =>
      cases hdb : st.db with
      | none =>
        cases f2 with
        | true => simp [hnot, hdb]
        | false => simp [hnot, hdb] at hfail
      | some d =>
        by_cases hk : d.key = deriveKey pw salt
        · cases f2 with
          | true => simp [hnot, hdb, hk]
          | false => simp [hnot, hdb, hk] at hfail
        · simp [hnot, hdb, hk]

theorem exitbox_C8_init_atomic_witness :
    vaultInit sentinelOverwrittenVault "pw" (List.replicate 32 0) false false =
      (sentinelOverwrittenVault, some "vault already exists") ∧
    ((vaultInit emptyVault "pw" (List.replicate 32 0) false true).1.salt = none ∧
      vaultIsInit (vaultInit emptyVault "pw" (List.replicate 32 0) false true).1 = false ∧
      ((vaultInit emptyVault "pw" (List.replicate 32 0) false true).1.db = emptyVault.db ∨
        (vaultInit emptyVault "pw" (List.replicate 32 0) false true).1.db = none)) :=
  ⟨(exitbox_C8_init_atomic sentinelOverwrittenVault "pw" (List.replicate 32 0) false false).1
      (by decide),
    (exitbox_C8_init_atomic emptyVault "pw" (List.replicate 32 0) false true).2
      (by decide) (by decide)⟩
